import Mathlib

/-!
Shallow embedding of the bounded-FD random-access file store
(`random-access-filesystem.js`, callback-driven `pull()` variant).

The JavaScript source is a single-threaded event loop: client calls and OS
I/O completions run to completion on one execution context.  We model the
system state explicitly and each event (client call or OS completion) as a
pure state transformer.  Worker-local methods (`tick`, `execIfOps`, `open`,
`closeIfDrained`, `start`, `stop`, `add`) become pure functions returning
the updated worker, the list of OS requests they issued, and the scheduler
callbacks they fired (`startCb` / `stopCb` are always the scheduler's two
fixed closures, so they are represented by flags and by `Eff` values that
the scheduler-level code interprets exactly as the closures do).

Synchronous re-entry of `pull()` from a callback fired inside `pull()` is
merged into the iteration of the single loop: the loop body is a
deterministic function of the state, so running the re-entrant `pull` to
completion and then resuming the outer loop is the same state sequence as
continuing one loop on the updated state.

Assertion failures (`assert(...)` in the source throws) are modelled by a
`crash` flag; a crashed system absorbs all further events.

`drainedOnce` is a ghost field (present in no JS field): it records that
`execIfOps` has at least once run the worker's op queue down to empty.  It
is written only at the end of a completed `execIfOps` and read by no
modelled code, so it does not influence any behaviour.
-/

namespace RAFS

/-- Scheduler wish for a worker: `this.control` in `PathWorker`. -/
inductive Control
  | start
  | stop
deriving DecidableEq, Repr

/-- Observed lifecycle state: `this.state` in `PathWorker`. -/
inductive WState
  | closed
  | opening
  | opened
  | draining
  | closing
deriving DecidableEq, Repr

/-- Payload of an op tuple: a read carries a size, a write carries bytes. -/
inductive OpKind
  | read (size : Nat)
  | write (data : List Nat)
deriving DecidableEq, Repr

/-- An op record `[type, offset, sizeOrData, cb]`; the completion callback
is identified by `id`, under which its result is logged. -/
structure Op where
  id : Nat
  offset : Nat
  kind : OpKind
deriving DecidableEq, Repr

/-- An asynchronous OS call issued by a worker and not yet completed:
`FS.read`, `FS.write`, `FS.open`, `mkdirp`, `FS.close`. -/
inductive OsReq
  | osRead (wid opId fd offset size : Nat)
  | osWrite (wid opId fd offset : Nat) (data : List Nat)
  | osOpen (wid : Nat)
  | osMkdir (wid : Nat)
  | osClose (wid fd : Nat)
deriving DecidableEq, Repr

/-- A scheduler callback fired by a worker: `startFired` is the scheduler's
start callback (`stoppableQueue.push(worker); pull()`), `stopFired` the stop
callback (`numActivePathWorkers -= 1; pull()`). -/
inductive Eff
  | startFired (wid : Nat)
  | stopFired (wid : Nat)
deriving DecidableEq, Repr

/-- Per-file state machine: the fields of `PathWorker`. -/
structure Worker where
  fullPath : String
  fullDirMade : Bool
  control : Control
  wstate : WState
  fd : Nat
  ops : List Op
  inFlightReads : Nat
  inFlightWrites : Nat
  startCb : Bool
  stopCb : Bool
  drainedOnce : Bool
deriving DecidableEq, Repr

/-- A fresh `new PathWorker(fullPath)`. -/
def mkWorker (fullPath : String) : Worker :=
  { fullPath := fullPath
    fullDirMade := false
    control := .stop
    wstate := .closed
    fd := 0
    ops := []
    inFlightReads := 0
    inFlightWrites := 0
    startCb := false
    stopCb := false
    drainedOnce := false }

/-- The OS request a dispatched op turns into (`FS.read` / `FS.write`). -/
def reqOfOp (wid fd : Nat) (op : Op) : OsReq :=
  match op.kind with
  | .read size => .osRead wid op.id fd op.offset size
  | .write data => .osWrite wid op.id fd op.offset data

/-- Result of the `while` loop in `execIfOps`: counts of dispatched reads
and writes, issued OS requests in dispatch order, remaining ops (non-empty
only after an assertion failure), and the crash flag. -/
structure LoopOut where
  reads : Nat
  writes : Nat
  reqs : List OsReq
  rem : List Op
  crash : Bool
deriving Repr

/-- The `while (!this.ops.isEmpty())` loop body of `execIfOps`.  `stOk` is
the per-iteration assertion `state === 'opened' || state === 'draining'`
(the state does not change during the loop, so it is evaluated once).  A
read increments `inFlightReads` before asserting `readSize > 0`, exactly as
the source does. -/
def execLoop (wid fd : Nat) (stOk : Bool) : List Op → LoopOut
  | [] => ⟨0, 0, [], [], false⟩
  | op :: rest =>
    if stOk then
      match op.kind with
      | .read size =>
        if 0 < size then
          let r := execLoop wid fd stOk rest
          ⟨r.reads + 1, r.writes, .osRead wid op.id fd op.offset size :: r.reqs, r.rem, r.crash⟩
        else ⟨1, 0, [], rest, true⟩
      | .write data =>
        let r := execLoop wid fd stOk rest
        ⟨r.reads, r.writes + 1, .osWrite wid op.id fd op.offset data :: r.reqs, r.rem, r.crash⟩
    else ⟨0, 0, [], op :: rest, true⟩

/-- Result of a worker-local method: updated worker, issued OS requests,
and crash flag. -/
structure ERes where
  w : Worker
  reqs : List OsReq
  crash : Bool
deriving Repr

/-- `PathWorker.execIfOps`: dispatch every queued op to the OS in queue
order.  Sets the ghost `drainedOnce` when the loop completes. -/
def execIfOps (wid : Nat) (w : Worker) : ERes :=
  let r := execLoop wid w.fd (decide (w.wstate = .opened ∨ w.wstate = .draining)) w.ops
  ⟨{ w with
      ops := r.rem
      inFlightReads := w.inFlightReads + r.reads
      inFlightWrites := w.inFlightWrites + r.writes
      drainedOnce := if r.crash then w.drainedOnce else true },
    r.reqs, r.crash⟩

/-- `PathWorker.closeIfDrained`: assert `opened`/`draining`; if no I/O is
in flight, move to `closing` and issue the `FS.close`. -/
def closeIfDrained (wid : Nat) (w : Worker) : ERes :=
  if w.wstate = .opened ∨ w.wstate = .draining then
    if w.inFlightReads = 0 ∧ w.inFlightWrites = 0 then
      ⟨{ w with wstate := .closing }, [.osClose wid w.fd], false⟩
    else ⟨w, [], false⟩
  else ⟨w, [], true⟩

/-- `PathWorker.open`: assert `closed`; move to `opening`; issue the
`FS.open` directly if the directory is already made, otherwise the
`mkdirp` (whose completion will issue the `FS.open`). -/
def openW (wid : Nat) (w : Worker) : ERes :=
  if w.wstate = .closed then
    let w1 := { w with wstate := .opening }
    if w.fullDirMade then ⟨w1, [.osOpen wid], false⟩
    else ⟨w1, [.osMkdir wid], false⟩
  else ⟨w, [], true⟩

/-- Result of `tick`/`start`/`stop`/`add`: updated worker, issued OS
requests, fired scheduler callbacks, crash flag. -/
structure WRes where
  w : Worker
  reqs : List OsReq
  effs : List Eff
  crash : Bool
deriving Repr

/-- The `case 'opened'` body under `control = 'start'`: exec, then fire the
pending start callback if any. -/
def tickStartOpened (wid : Nat) (w : Worker) : WRes :=
  let r := execIfOps wid w
  if r.crash then ⟨r.w, r.reqs, [], true⟩
  else if r.w.startCb then ⟨{ r.w with startCb := false }, r.reqs, [.startFired wid], false⟩
  else ⟨r.w, r.reqs, [], false⟩

/-- `PathWorker.tick`.  The two self-re-ticks in the source
(`draining → opened → tick` under start, and `opened → draining → tick`
under stop) are inlined: the re-tick re-reads the unchanged `control` and
the just-written `state`, so it lands in exactly the inlined branch. -/
def tick (wid : Nat) (w : Worker) : WRes :=
  match w.control with
  | .start =>
    match w.wstate with
    | .opening => ⟨w, [], [], false⟩
    | .opened => tickStartOpened wid w
    | .draining => tickStartOpened wid { w with wstate := .opened }
    | .closing => ⟨w, [], [], false⟩
    | .closed =>
      let r := openW wid w
      ⟨r.w, r.reqs, [], r.crash⟩
  | .stop =>
    match w.wstate with
    | .opening => ⟨w, [], [], false⟩
    | .opened =>
      let r := execIfOps wid w
      if r.crash then ⟨r.w, r.reqs, [], true⟩
      else
        let r2 := closeIfDrained wid { r.w with wstate := .draining }
        ⟨r2.w, r.reqs ++ r2.reqs, [], r2.crash⟩
    | .draining =>
      let r := closeIfDrained wid w
      ⟨r.w, r.reqs, [], r.crash⟩
    | .closing => ⟨w, [], [], false⟩
    | .closed =>
      if w.stopCb then ⟨{ w with stopCb := false }, [], [.stopFired wid], false⟩
      else ⟨w, [], [], false⟩

/-- `PathWorker.start(startCb)`: set `control = 'start'`; if a callback is
passed, assert none is pending and store it; tick. -/
def startW (wid : Nat) (withCb : Bool) (w : Worker) : WRes :=
  let w0 := { w with control := Control.start }
  if withCb then
    if w0.startCb then ⟨w0, [], [], true⟩
    else tick wid { w0 with startCb := true }
  else tick wid w0

/-- `PathWorker.stop(stopCb)`: set `control = 'stop'`; assert no stop
callback is pending; store it; tick. -/
def stopW (wid : Nat) (w : Worker) : WRes :=
  let w0 := { w with control := Control.stop }
  if w0.stopCb then ⟨w0, [], [], true⟩
  else tick wid { w0 with stopCb := true }

/-- `PathWorker.add(op)`: append the op to the back of the queue; tick. -/
def addW (wid : Nat) (w : Worker) (op : Op) : WRes :=
  tick wid { w with ops := w.ops ++ [op] }

/-- Semantic kind of an error delivered to a read completion. -/
inductive RdErr
  | osErr (e : Nat)
  | shortRead
deriving DecidableEq, Repr

/-- A value delivered to a client op completion callback. -/
inductive CbRes
  | readOk (data : List Nat)
  | readErr (e : RdErr)
  | writeOk
  | writeErr (e : Nat)
deriving DecidableEq, Repr

/-- Whole-system state: the `RandomAccessFilesystem` fields, the worker
heap (a worker's identity is its index), the multiset of in-flight OS
calls, the log of client op completions, and the crash flag.
`interfaces` is the `pathInterfaces` map: each `PathInterface` is created
together with its `PathWorker` and holds a reference to it, so a handle is
identified by its worker index. -/
structure Sys where
  dirPath : String
  maxOpenFiles : Nat
  interfaces : List (String × Nat)
  workers : List Worker
  numActive : Int
  stoppableQueue : List Nat
  scheduleQueue : List Nat
  pendingOs : List OsReq
  completions : List (Nat × CbRes)
  crashed : Bool
deriving Repr

/-- The `RandomAccessFilesystem` constructor: `assert(dirPath)` and
`assert(maxOpenFiles)` reject falsy (empty / zero) configuration
synchronously. -/
def mkSys (dirPath : String) (maxOpenFiles : Nat) : Option Sys :=
  if dirPath = "" ∨ maxOpenFiles = 0 then none
  else some
    { dirPath := dirPath
      maxOpenFiles := maxOpenFiles
      interfaces := []
      workers := []
      numActive := 0
      stoppableQueue := []
      scheduleQueue := []
      pendingOs := []
      completions := []
      crashed := false }

/-- Look a worker up by index. -/
def getW (s : Sys) (wid : Nat) : Option Worker :=
  s.workers[wid]?

/-- Write a worker back by index. -/
def setW (s : Sys) (wid : Nat) (w : Worker) : Sys :=
  { s with workers := s.workers.set wid w }

/-- Lookup in the `pathInterfaces` map. -/
def lookupPI (s : Sys) (p : String) : Option Nat :=
  (s.interfaces.find? (fun kv => kv.1 = p)).map (fun kv => kv.2)

/-- `RandomAccessFilesystem.fullPath`: `Path.join(dirPath, shortPath)`. -/
def fullPathOf (s : Sys) (p : String) : String :=
  s.dirPath ++ "/" ++ p

/-- `RandomAccessFilesystem.storageFor`: memoised per short path; on a
miss, create the worker and its interface and record them. -/
def storageFor (s : Sys) (p : String) : Sys × Nat :=
  match lookupPI s p with
  | some wid => (s, wid)
  | none =>
    let wid := s.workers.length
    ({ s with
        workers := s.workers ++ [mkWorker (fullPathOf s p)]
        interfaces := s.interfaces ++ [(p, wid)] }, wid)

/-- Interpret scheduler callbacks fired synchronously inside `pull`:
the start callback pushes its worker on the stoppable queue, the stop
callback decrements `numActivePathWorkers`.  The re-entrant `pull()` each
of them performs is merged into the iteration of the enclosing loop. -/
def applyEffsInPull (s : Sys) (effs : List Eff) : Sys :=
  effs.foldl
    (fun s e =>
      match e with
      | .startFired wid => { s with stoppableQueue := s.stoppableQueue ++ [wid] }
      | .stopFired _ => { s with numActive := s.numActive - 1 })
    s

/-- One iteration of the `while (true)` loop of
`RandomAccessFilesystem.pull`.  Returns the new state and whether the loop
continues.  A thrown assertion stops the loop with the crash flag set. -/
def pullStep (s : Sys) : Sys × Bool :=
  match s.scheduleQueue with
  | [] => (s, false)
  | wid :: rest =>
    if ¬ s.numActive < (s.maxOpenFiles : Int) ∧ s.stoppableQueue = [] then
      (s, false)
    else
      let s0 := { s with scheduleQueue := rest }
      match getW s0 wid with
      | none => ({ s0 with crashed := true }, false)
      | some w =>
        if w.control = Control.start then (s0, true)
        else if ¬ w.wstate = WState.closed then
          let r := startW wid false w
          let s1 := applyEffsInPull
            { setW s0 wid r.w with
                pendingOs := s0.pendingOs ++ r.reqs
                crashed := s0.crashed || r.crash } r.effs
          (s1, !r.crash)
        else if s.numActive < (s.maxOpenFiles : Int) then
          let s1 := { s0 with numActive := s0.numActive + 1 }
          let r := startW wid true w
          let s2 := applyEffsInPull
            { setW s1 wid r.w with
                pendingOs := s1.pendingOs ++ r.reqs
                crashed := s1.crashed || r.crash } r.effs
          (s2, !r.crash)
        else
          match s0.stoppableQueue with
          | [] => ({ s0 with crashed := true }, false)
          | v :: vrest =>
            match getW s0 v with
            | none => ({ s0 with stoppableQueue := vrest, crashed := true }, false)
            | some wv =>
              let r := stopW v wv
              let s1 := applyEffsInPull
                { setW { s0 with stoppableQueue := vrest } v r.w with
                    pendingOs := s0.pendingOs ++ r.reqs
                    crashed := s0.crashed || r.crash } r.effs
              ({ s1 with scheduleQueue := wid :: s1.scheduleQueue }, !r.crash)

/-- Termination measure for the `pull` loop: each continuing iteration
strictly decreases it. -/
def pullMeasure (s : Sys) : Nat :=
  2 * s.scheduleQueue.length + s.stoppableQueue.length

/-- Fuelled iteration of `pullStep`; `none` exactly when the fuel runs
out with the loop still continuing. -/
def pullF : Nat → Sys → Option Sys
  | 0, _ => none
  | n + 1, s =>
    match pullStep s with
    | (s', false) => some s'
    | (s', true) => pullF n s'

/-- `RandomAccessFilesystem.pull`: iterate the loop body.  The fuel
`pullMeasure s + 1` is sufficient (proved below), so the `getD` default is
never taken. -/
def pull (s : Sys) : Sys :=
  (pullF (pullMeasure s + 1) s).getD s

/-- Interpret scheduler callbacks fired from an asynchronous completion
(outside `pull`): each performs its state change and then re-enters
`pull()`, exactly as the two closures in the source do. -/
def applySysEffs (s : Sys) (effs : List Eff) : Sys :=
  effs.foldl
    (fun s e =>
      match e with
      | .startFired wid => pull { s with stoppableQueue := s.stoppableQueue ++ [wid] }
      | .stopFired _ => pull { s with numActive := s.numActive - 1 })
    s

/-- Run `tick` on worker `wid` (already looked up as `w`), commit the
updated worker, record the issued OS requests, and interpret the fired
scheduler callbacks. -/
def commitTick (s : Sys) (wid : Nat) (w : Worker) : Sys :=
  let r := tick wid w
  applySysEffs
    { setW s wid r.w with
        pendingOs := s.pendingOs ++ r.reqs
        crashed := s.crashed || r.crash } r.effs

/-- `RandomAccessFilesystem.op`: build the op, `worker.add(op)`, push the
worker on the schedule queue, `pull()`.  A crash inside `add` (a thrown
assertion) aborts before the push and the pull. -/
def submitOp (s : Sys) (wid : Nat) (op : Op) : Sys :=
  match getW s wid with
  | none => { s with crashed := true }
  | some w =>
    let r := addW wid w op
    let s1 :=
      { setW s wid r.w with
          pendingOs := s.pendingOs ++ r.reqs
          crashed := s.crashed || r.crash }
    if r.crash then s1
    else
      let s2 := applySysEffs s1 r.effs
      pull { s2 with scheduleQueue := s2.scheduleQueue ++ [wid] }

/-- OS outcome of an `FS.read`: an error, or a byte count together with
the bytes the OS wrote into the freshly allocated buffer. -/
inductive OsRead
  | err (e : Nat)
  | ok (n : Nat) (bytes : List Nat)
deriving DecidableEq, Repr

/-- OS outcome of an `FS.write`: an error, or the number of bytes
written. -/
inductive OsWrite
  | err (e : Nat)
  | ok (written : Nat)
deriving DecidableEq, Repr

/-- Match a pending `FS.read` call by worker and op. -/
def isOsRead (wid opId : Nat) : OsReq → Bool
  | .osRead w o _ _ _ => w == wid && o == opId
  | _ => false

/-- Match a pending `FS.write` call by worker and op. -/
def isOsWrite (wid opId : Nat) : OsReq → Bool
  | .osWrite w o _ _ _ => w == wid && o == opId
  | _ => false

/-- Match a pending `FS.open` call by worker. -/
def isOsOpen (wid : Nat) : OsReq → Bool
  | .osOpen w => w == wid
  | _ => false

/-- Match a pending `mkdirp` call by worker. -/
def isOsMkdir (wid : Nat) : OsReq → Bool
  | .osMkdir w => w == wid
  | _ => false

/-- Match a pending `FS.close` call by worker. -/
def isOsClose (wid : Nat) : OsReq → Bool
  | .osClose w _ => w == wid
  | _ => false

/-- Remove the first list element satisfying `p`, returning it and the
remainder. -/
def extractFirst (p : OsReq → Bool) : List OsReq → Option (OsReq × List OsReq)
  | [] => none
  | r :: rs =>
    if p r then some (r, rs)
    else
      match extractFirst p rs with
      | none => none
      | some (x, l) => some (x, r :: l)

/-- The buffer a read completion delivers: `Buffer.alloc(size)` zeros with
the bytes the OS wrote at the front.  Its length is always `size`. -/
def padBuf (size : Nat) (bytes : List Nat) : List Nat :=
  bytes.take size ++ List.replicate (size - bytes.length) 0

/-- Completion of a pending `FS.read` (the callback at the `'read'` case
of `execIfOps`): decrement `inFlightReads`; on error deliver the error; on
zero bytes deliver the `Could not satisfy length` error; otherwise assert
the full size was read and deliver the buffer; then tick. -/
def stepReadDone (s : Sys) (wid opId : Nat) (res : OsRead) : Option Sys :=
  match extractFirst (isOsRead wid opId) s.pendingOs with
  | some (.osRead _ _ _ _ size, restOs) =>
    match getW s wid with
    | none => none
    | some w =>
      let w1 := { w with inFlightReads := w.inFlightReads - 1 }
      let s1 := { s with pendingOs := restOs }
      match res with
      | .err e =>
        some (commitTick
          { s1 with completions := s1.completions ++ [(opId, .readErr (.osErr e))] } wid w1)
      | .ok n bytes =>
        if n = 0 then
          some (commitTick
            { s1 with completions := s1.completions ++ [(opId, .readErr .shortRead)] } wid w1)
        else if n = size then
          some (commitTick
            { s1 with completions := s1.completions ++ [(opId, .readOk (padBuf size bytes))] } wid w1)
        else some { setW s1 wid w1 with crashed := true }
  | _ => none

/-- Completion of a pending `FS.write` (the callback at the `'write'` case
of `execIfOps`): decrement `inFlightWrites`; on error deliver the error;
otherwise assert all bytes were written and deliver success; then tick. -/
def stepWriteDone (s : Sys) (wid opId : Nat) (res : OsWrite) : Option Sys :=
  match extractFirst (isOsWrite wid opId) s.pendingOs with
  | some (.osWrite _ _ _ _ data, restOs) =>
    match getW s wid with
    | none => none
    | some w =>
      let w1 := { w with inFlightWrites := w.inFlightWrites - 1 }
      let s1 := { s with pendingOs := restOs }
      match res with
      | .err e =>
        some (commitTick
          { s1 with completions := s1.completions ++ [(opId, .writeErr e)] } wid w1)
      | .ok written =>
        if written = data.length then
          some (commitTick
            { s1 with completions := s1.completions ++ [(opId, .writeOk)] } wid w1)
        else some { setW s1 wid w1 with crashed := true }
  | _ => none

/-- Successful completion of a pending `mkdirp`: mark the directory made
and issue the `FS.open` (`_open()` in the source). -/
def stepMkdirDone (s : Sys) (wid : Nat) : Option Sys :=
  match extractFirst (isOsMkdir wid) s.pendingOs with
  | some (_, restOs) =>
    match getW s wid with
    | none => none
    | some w =>
      some { setW s wid { w with fullDirMade := true } with
              pendingOs := restOs ++ [.osOpen wid] }
  | none => none

/-- Successful completion of a pending `FS.open`: assert the worker is
still `opening`; record the descriptor; move to `opened`; tick. -/
def stepOpenDone (s : Sys) (wid fd : Nat) : Option Sys :=
  match extractFirst (isOsOpen wid) s.pendingOs with
  | some (_, restOs) =>
    match getW s wid with
    | none => none
    | some w =>
      if w.wstate = WState.opening then
        some (commitTick { s with pendingOs := restOs } wid
          { w with wstate := .opened, fd := fd })
      else some { s with pendingOs := restOs, crashed := true }
  | none => none

/-- Successful completion of a pending `FS.close`: assert the worker is
still `closing`; clear the descriptor; move to `closed`; tick. -/
def stepCloseDone (s : Sys) (wid : Nat) : Option Sys :=
  match extractFirst (isOsClose wid) s.pendingOs with
  | some (_, restOs) =>
    match getW s wid with
    | none => none
    | some w =>
      if w.wstate = WState.closing then
        some (commitTick { s with pendingOs := restOs } wid
          { w with wstate := .closed, fd := 0 })
      else some { s with pendingOs := restOs, crashed := true }
  | none => none

/-- An event of the single-threaded loop: a client API call, or the
completion of a pending OS call. -/
inductive Ev
  | evStorageFor (path : String)
  | evRead (path : String) (opId offset size : Nat)
  | evWrite (path : String) (opId offset : Nat) (data : List Nat)
  | evMkdirDone (wid : Nat)
  | evOpenDone (wid fd : Nat)
  | evCloseDone (wid : Nat)
  | evReadDone (wid opId : Nat) (res : OsRead)
  | evWriteDone (wid opId : Nat) (res : OsWrite)
deriving Repr

/-- Dispatch one event.  `none` means the event is not enabled (no such
handle, or no matching pending OS call).  A crashed system (a thrown
assertion tore the process down) absorbs every event. -/
def step (s : Sys) (e : Ev) : Option Sys :=
  if s.crashed then some s
  else
    match e with
    | .evStorageFor p => some (storageFor s p).1
    | .evRead p opId offset size =>
      match lookupPI s p with
      | some wid => some (submitOp s wid ⟨opId, offset, .read size⟩)
      | none => none
    | .evWrite p opId offset data =>
      match lookupPI s p with
      | some wid => some (submitOp s wid ⟨opId, offset, .write data⟩)
      | none => none
    | .evMkdirDone wid => stepMkdirDone s wid
    | .evOpenDone wid fd => stepOpenDone s wid fd
    | .evCloseDone wid => stepCloseDone s wid
    | .evReadDone wid opId res => stepReadDone s wid opId res
    | .evWriteDone wid opId res => stepWriteDone s wid opId res

/-- Total step: a disabled event leaves the state unchanged. -/
def stepD (s : Sys) (e : Ev) : Sys :=
  (step s e).getD s

/-- Run a sequence of events. -/
def run (s : Sys) : List Ev → Sys
  | [] => s
  | e :: es => run (stepD s e) es

/-- Projection helpers used to state claims about a single worker. -/
def wStateOf (s : Sys) (wid : Nat) : Option WState :=
  (getW s wid).map Worker.wstate

/-- Control of a worker, if it exists. -/
def wControlOf (s : Sys) (wid : Nat) : Option Control :=
  (getW s wid).map Worker.control

/-- Op queue of a worker, if it exists. -/
def wOpsOf (s : Sys) (wid : Nat) : Option (List Op) :=
  (getW s wid).map Worker.ops

/-- Descriptor of a worker, if it exists. -/
def wFdOf (s : Sys) (wid : Nat) : Option Nat :=
  (getW s wid).map Worker.fd

/-- Ghost drained-once flag of a worker, if it exists. -/
def wDrainedOf (s : Sys) (wid : Nat) : Option Bool :=
  (getW s wid).map Worker.drainedOnce

/-- Stop-callback flag of a worker, if it exists. -/
def wStopCbOf (s : Sys) (wid : Nat) : Option Bool :=
  (getW s wid).map Worker.stopCb

/-- Every read op in the list requests a positive size (the property the
`assert(readSize > 0)` in `execIfOps` checks per op). -/
def validOps (ops : List Op) : Bool :=
  ops.all fun op =>
    match op.kind with
    | .read size => 0 < size
    | .write _ => true

/-- An OS request that moves data, as opposed to one that opens or closes
a descriptor or makes a directory. -/
def isDataReq : OsReq → Bool
  | .osRead _ _ _ _ _ => true
  | .osWrite _ _ _ _ _ => true
  | _ => false

/-- Relation between a state and any state the scheduling machinery
(`pull` and the scheduler callbacks) can turn it into: client-visible logs
and configuration are untouched, the worker heap keeps its size, and the
active count either did not grow or is within the FD budget. -/
def Frame (s s' : Sys) : Prop :=
  s'.completions = s.completions ∧
  s'.interfaces = s.interfaces ∧
  s'.maxOpenFiles = s.maxOpenFiles ∧
  s'.dirPath = s.dirPath ∧
  s'.workers.length = s.workers.length ∧
  (s'.numActive ≤ s.numActive ∨ s'.numActive ≤ (s.maxOpenFiles : Int))

/-- The scheduler's counter never exceeds the FD budget. -/
def FdBound (s : Sys) : Prop :=
  s.numActive ≤ (s.maxOpenFiles : Int)

/-- Properties of a worker admitted to the stoppable queue: `Opened`
under `control = Start`, has drained its ops to empty at least once, and
holds no pending start callback. -/
def GoodW (w : Worker) : Prop :=
  w.wstate = WState.opened ∧ w.control = Control.start ∧
  w.drainedOnce = true ∧ w.startCb = false

/-- The stoppable-queue invariant over a queue and a worker heap: no
duplicates, and every member is an existing worker satisfying `GoodW`. -/
def GoodQW (queue : List Nat) (workers : List Worker) : Prop :=
  queue.Nodup ∧ ∀ v ∈ queue, ∃ w, workers[v]? = some w ∧ GoodW w

/-- The amended stoppable-queue invariant (one direction of the spec's
iff): every stoppable-queue member is an existing worker that is `Opened`
under `control = Start`, has drained at least once, and holds no pending
start callback. -/
def GoodStoppable (s : Sys) : Prop :=
  GoodQW s.stoppableQueue s.workers

/-- Concrete scheduler freshly constructed with `dirPath = "d"`,
`maxOpenFiles = 2`. -/
def initD2 : Sys :=
  { dirPath := "d"
    maxOpenFiles := 2
    interfaces := []
    workers := []
    numActive := 0
    stoppableQueue := []
    scheduleQueue := []
    pendingOs := []
    completions := []
    crashed := false }

/-- Concrete scheduler freshly constructed with `dirPath = "d"`,
`maxOpenFiles = 3`. -/
def initD3 : Sys :=
  { initD2 with maxOpenFiles := 3 }

/-- Event trace driving a worker through eviction, rescue from `Draining`,
and a final drain: workers `a`,`b`,`c`,`dd` under a budget of 3.  Worker 0
(`a`) is evicted while its first read is in flight, rescued by a new read,
and finishes with both reads completed. -/
def rescueTrace : List Ev :=
  [ .evStorageFor "a", .evStorageFor "b", .evStorageFor "c", .evStorageFor "dd",
    .evRead "dd" 9 0 1,
    .evMkdirDone 3, .evOpenDone 3 6,
    .evReadDone 3 9 (.ok 1 [1]),
    .evRead "a" 0 0 1,
    .evMkdirDone 0, .evOpenDone 0 3,
    .evRead "b" 1 0 1,
    .evMkdirDone 1, .evOpenDone 1 4,
    .evRead "c" 2 0 1,
    .evCloseDone 3,
    .evReadDone 1 1 (.ok 1 [1]),
    .evCloseDone 1,
    .evRead "a" 3 0 1,
    .evReadDone 0 0 (.ok 1 [1]),
    .evReadDone 0 3 (.ok 1 [1]) ]

/-- Event trace submitting a zero-size read. -/
def zeroReadTrace : List Ev :=
  [ .evStorageFor "a", .evRead "a" 0 0 0 ]

/-- The zero-size-read trace continued until the worker opens and
dispatches. -/
def zeroReadDispatchTrace : List Ev :=
  [ .evStorageFor "a", .evRead "a" 0 0 0, .evMkdirDone 0, .evOpenDone 0 3 ]

/-- A concrete opened worker with one in-flight read and no queued ops. -/
def openedWorker : Worker :=
  { fullPath := "d/a"
    fullDirMade := true
    control := .start
    wstate := .opened
    fd := 3
    ops := []
    inFlightReads := 1
    inFlightWrites := 0
    startCb := false
    stopCb := false
    drainedOnce := true }

/-- A concrete system with one pending OS read for worker 0, op 5. -/
def pendingReadSys : Sys :=
  { initD2 with
      interfaces := [("a", 0)]
      workers := [openedWorker]
      numActive := 1
      pendingOs := [.osRead 0 5 3 0 4] }

/-- A concrete system with one pending OS write for worker 0, op 5. -/
def pendingWriteSys : Sys :=
  { initD2 with
      interfaces := [("a", 0)]
      workers := [{ openedWorker with inFlightReads := 0, inFlightWrites := 1 }]
      numActive := 1
      pendingOs := [.osWrite 0 5 3 0 [10, 20, 30]] }

/-- A concrete opened worker holding two queued ops. -/
def twoOpsWorker : Worker :=
  { openedWorker with
      inFlightReads := 0
      ops := [⟨6, 0, .read 2⟩, ⟨7, 4, .write [1, 2]⟩] }

/-- A concrete closed worker holding one queued op. -/
def closedOneOpWorker : Worker :=
  { openedWorker with
      wstate := .closed
      control := .stop
      fd := 0
      inFlightReads := 0
      drainedOnce := false
      ops := [⟨6, 0, .read 2⟩] }

/-- A concrete mid-stop worker: `control = Stop`, `state = Draining`, one
read in flight, one newly queued op. -/
def drainingWorker : Worker :=
  { openedWorker with
      control := .stop
      wstate := .draining
      stopCb := true
      ops := [⟨8, 0, .read 2⟩] }

/-- A concrete system whose schedule queue holds the mid-stop worker 0. -/
def rescueSys : Sys :=
  { initD2 with
      interfaces := [("a", 0)]
      workers := [drainingWorker]
      numActive := 1
      scheduleQueue := [0]
      pendingOs := [.osRead 0 0 3 0 1] }

/-- A concrete system at the eviction decision: worker 0 demands an FD
(`Stop`/`Closed`, on the schedule queue), there is no headroom, and the
idle opened worker 1 heads the stoppable queue. -/
def evictSys : Sys :=
  { initD2 with
      maxOpenFiles := 1
      interfaces := [("a", 0), ("b", 1)]
      workers :=
        [ { closedOneOpWorker with stopCb := false },
          { openedWorker with inFlightReads := 0 } ]
      numActive := 1
      stoppableQueue := [1]
      scheduleQueue := [0] }

/-! Worker-level lemmas. -/

theorem execLoop_valid (wid fd : Nat) :
    ∀ ops : List Op, validOps ops = true →
      (execLoop wid fd true ops).reqs = ops.map (reqOfOp wid fd) ∧
      (execLoop wid fd true ops).rem = [] ∧
      (execLoop wid fd true ops).crash = false := by
  intro ops
  induction ops with
  | nil => intro _; exact ⟨rfl, rfl, rfl⟩
  | cons op rest ih =>
    intro hv
    simp only [validOps, List.all_cons, Bool.and_eq_true] at hv
    obtain ⟨h1r, h2r, h3r⟩ := ih hv.2
    rcases op with ⟨oid, ooff, okind⟩
    cases okind with
    | read size =>
      have hs : 0 < size := by simpa using hv.1
      simp [execLoop, hs, reqOfOp, h1r, h2r, h3r]
    | write data =>
      simp [execLoop, reqOfOp, h1r, h2r, h3r]

theorem execIfOps_control (wid : Nat) (w : Worker) :
    (execIfOps wid w).w.control = w.control := rfl

theorem execIfOps_wstate (wid : Nat) (w : Worker) :
    (execIfOps wid w).w.wstate = w.wstate := rfl

theorem execIfOps_startCb (wid : Nat) (w : Worker) :
    (execIfOps wid w).w.startCb = w.startCb := rfl

theorem execIfOps_stopCb (wid : Nat) (w : Worker) :
    (execIfOps wid w).w.stopCb = w.stopCb := rfl

theorem execIfOps_fd (wid : Nat) (w : Worker) :
    (execIfOps wid w).w.fd = w.fd := rfl

theorem execIfOps_valid (wid : Nat) (w : Worker)
    (hst : w.wstate = WState.opened ∨ w.wstate = WState.draining)
    (hv : validOps w.ops = true) :
    (execIfOps wid w).reqs = w.ops.map (reqOfOp wid w.fd) ∧
    (execIfOps wid w).w.ops = [] ∧
    (execIfOps wid w).crash = false ∧
    (execIfOps wid w).w.drainedOnce = true := by
  have hd : decide (w.wstate = WState.opened ∨ w.wstate = WState.draining) = true := by
    simpa using hst
  obtain ⟨h1, h2, h3⟩ := execLoop_valid wid w.fd w.ops hv
  refine ⟨?_, ?_, ?_, ?_⟩ <;> simp [execIfOps, hd, h1, h2, h3]

theorem execIfOps_drainedOnce_mono (wid : Nat) (w : Worker)
    (h : w.drainedOnce = true) : (execIfOps wid w).w.drainedOnce = true := by
  simp only [execIfOps]
  split <;> simp [h]

theorem tickStartOpened_control (wid : Nat) (w : Worker) :
    (tickStartOpened wid w).w.control = w.control := by
  simp only [tickStartOpened]
  split
  · rfl
  · split <;> rfl

theorem tickStartOpened_wstate (wid : Nat) (w : Worker) :
    (tickStartOpened wid w).w.wstate = w.wstate := by
  simp only [tickStartOpened]
  split
  · rfl
  · split <;> rfl

theorem tickStartOpened_effs (wid : Nat) (w : Worker) :
    (tickStartOpened wid w).effs = [] ∨ (tickStartOpened wid w).effs = [Eff.startFired wid] := by
  simp only [tickStartOpened]
  split
  · exact Or.inl rfl
  · split
    · exact Or.inr rfl
    · exact Or.inl rfl

theorem execIfOps_drainedOnce_of_not_crash (wid : Nat) (w : Worker)
    (h : (execIfOps wid w).crash = false) : (execIfOps wid w).w.drainedOnce = true := by
  have h' : (execLoop wid w.fd
      (decide (w.wstate = WState.opened ∨ w.wstate = WState.draining)) w.ops).crash = false := h
  show (if (execLoop wid w.fd
      (decide (w.wstate = WState.opened ∨ w.wstate = WState.draining)) w.ops).crash = true
    then w.drainedOnce else true) = true
  rw [h']
  simp

theorem tickStartOpened_startFired (wid : Nat) (w : Worker)
    (h : (tickStartOpened wid w).effs ≠ []) :
    (tickStartOpened wid w).w.wstate = w.wstate ∧
    (tickStartOpened wid w).w.control = w.control ∧
    (tickStartOpened wid w).w.drainedOnce = true ∧
    (tickStartOpened wid w).w.startCb = false := by
  by_cases hcr : (execIfOps wid w).crash = true
  · simp [tickStartOpened, hcr] at h
  · by_cases hcb : (execIfOps wid w).w.startCb = true
    · have hd : (execIfOps wid w).w.drainedOnce = true :=
        execIfOps_drainedOnce_of_not_crash wid w (by simpa using hcr)
      simp [tickStartOpened, hcr, hcb, hd, execIfOps_wstate, execIfOps_control]
    · simp [tickStartOpened, hcr, hcb] at h

theorem closeIfDrained_control (wid : Nat) (w : Worker) :
    (closeIfDrained wid w).w.control = w.control := by
  unfold closeIfDrained
  split
  · split <;> rfl
  · rfl

theorem openW_control (wid : Nat) (w : Worker) :
    (openW wid w).w.control = w.control := by
  unfold openW
  split
  · split <;> rfl
  · rfl

theorem tick_control (wid : Nat) (w : Worker) :
    (tick wid w).w.control = w.control := by
  rcases hc : w.control <;> rcases hs : w.wstate <;>
    simp only [tick, hc, hs] <;>
    (try split) <;>
    simp [tickStartOpened_control, openW_control, closeIfDrained_control,
      execIfOps_control, hc]

theorem tick_start_effs (wid : Nat) (w : Worker) (h : w.control = Control.start) :
    (tick wid w).effs = [] ∨ (tick wid w).effs = [Eff.startFired wid] := by
  rcases hs : w.wstate <;> simp only [tick, h, hs]
  · left; trivial
  · left; trivial
  · exact tickStartOpened_effs wid w
  · exact tickStartOpened_effs wid _
  · left; trivial

theorem tick_stop_effs (wid : Nat) (w : Worker) (h : w.control = Control.stop) :
    (tick wid w).effs = [] ∨ (tick wid w).effs = [Eff.stopFired wid] := by
  rcases hs : w.wstate <;> simp only [tick, h, hs]
  · split
    · right; trivial
    · left; trivial
  · left; trivial
  · split
    · left; trivial
    · left; trivial
  · left; trivial
  · left; trivial

theorem tick_effs_shape (wid : Nat) (w : Worker) :
    (tick wid w).effs = [] ∨ (tick wid w).effs = [Eff.startFired wid] ∨
      (tick wid w).effs = [Eff.stopFired wid] := by
  rcases hc : w.control
  · rcases tick_start_effs wid w hc with h | h
    · exact Or.inl h
    · exact Or.inr (Or.inl h)
  · rcases tick_stop_effs wid w hc with h | h
    · exact Or.inl h
    · exact Or.inr (Or.inr h)

theorem startW_effs (wid : Nat) (b : Bool) (w : Worker) :
    (startW wid b w).effs = [] ∨ (startW wid b w).effs = [Eff.startFired wid] := by
  simp only [startW]
  split
  · split
    · exact Or.inl rfl
    · exact tick_start_effs wid _ rfl
  · exact tick_start_effs wid _ rfl

theorem stopW_effs (wid : Nat) (w : Worker) :
    (stopW wid w).effs = [] ∨ (stopW wid w).effs = [Eff.stopFired wid] := by
  simp only [stopW]
  split
  · exact Or.inl rfl
  · exact tick_stop_effs wid _ rfl

/-! Lemmas about the scheduler-callback interpreters. -/

theorem applyEffsInPull_nil (s : Sys) : applyEffsInPull s [] = s := rfl

theorem applyEffsInPull_startFired (s : Sys) (wid : Nat) :
    applyEffsInPull s [Eff.startFired wid] =
      { s with stoppableQueue := s.stoppableQueue ++ [wid] } := rfl

theorem applyEffsInPull_stopFired (s : Sys) (wid : Nat) :
    applyEffsInPull s [Eff.stopFired wid] =
      { s with numActive := s.numActive - 1 } := rfl

/-! Termination of the `pull` loop:
each continuing iteration strictly decreases `pullMeasure`. -/

theorem pullStep_cont_measure (s : Sys) (h : (pullStep s).2 = true) :
    pullMeasure (pullStep s).1 < pullMeasure s := by
  rcases hq : s.scheduleQueue with _ | ⟨wid, rest⟩
  · simp [pullStep, hq] at h
  · by_cases hg : ¬ s.numActive < (s.maxOpenFiles : Int) ∧ s.stoppableQueue = []
    · simp [pullStep, hq, hg] at h
    · rcases hw : s.workers[wid]? with _ | w
      · simp only [pullStep, hq, getW, hw] at h
        split at h <;> simp at h
      · by_cases hc : w.control = Control.start
        · simp only [pullStep, hq, getW, hg, hw, hc] at h ⊢
          simp [pullMeasure, hg, hq]
        · by_cases hcl : w.wstate = WState.closed
          · by_cases hh : s.numActive < (s.maxOpenFiles : Int)
            · rcases startW_effs wid true w with he | he <;>
                simp only [pullStep, hq, getW, hg, hw, hc, hcl, hh] at h ⊢ <;>
                simp [pullMeasure, hg, hh, hc, hq, he, applyEffsInPull_nil,
                  applyEffsInPull_startFired, setW] <;>
                omega
            · rcases hv : s.stoppableQueue with _ | ⟨v, vrest⟩
              · exact absurd ⟨hh, hv⟩ hg
              · rcases hwv : s.workers[v]? with _ | wv
                · simp [pullStep, hq, getW, hg, hw, hc, hcl, hh, hv, hwv] at h
                · rcases stopW_effs v wv with he | he <;>
                    simp only [pullStep, hq, getW, hg, hw, hc, hcl, hh, hv, hwv] at h ⊢ <;>
                    simp [pullMeasure, hg, hh, hc, hq, hv, he, applyEffsInPull_nil,
                      applyEffsInPull_stopFired, setW] <;>
                    omega
          · rcases startW_effs wid false w with he | he <;>
              simp only [pullStep, hq, getW, hg, hw, hc, hcl] at h ⊢ <;>
              simp [pullMeasure, hg, hc, hcl, hq, he, applyEffsInPull_nil,
                applyEffsInPull_startFired, setW] <;>
              omega

theorem pullF_sufficient : ∀ (n : Nat) (s : Sys), pullMeasure s < n →
    (pullF n s).isSome = true := by
  intro n
  induction n with
  | zero => intro s h; omega
  | succ n ih =>
    intro s h
    rcases hp : pullStep s with ⟨s', b⟩
    cases b
    · simp [pullF, hp]
    · have hm := pullStep_cont_measure s (by rw [hp])
      rw [hp] at hm
      have hm' : pullMeasure s' < pullMeasure s := by simpa using hm
      simp only [pullF, hp]
      exact ih s' (by omega)

/-! Frame facts: fields the scheduling machinery never touches, and the
only two ways it can move `numActivePathWorkers`. -/

theorem frame_refl (s : Sys) : Frame s s :=
  ⟨rfl, rfl, rfl, rfl, rfl, Or.inl (le_refl _)⟩

theorem frame_trans {s s1 s2 : Sys} (h1 : Frame s s1) (h2 : Frame s1 s2) :
    Frame s s2 := by
  obtain ⟨a1, b1, c1, d1, e1, f1⟩ := h1
  obtain ⟨a2, b2, c2, d2, e2, f2⟩ := h2
  refine ⟨a2.trans a1, b2.trans b1, c2.trans c1, d2.trans d1, e2.trans e1, ?_⟩
  rw [c1] at f2
  omega

theorem pullStep_frame (s : Sys) : Frame s (pullStep s).1 := by
  rcases hq : s.scheduleQueue with _ | ⟨wid, rest⟩
  · simp [pullStep, hq, frame_refl]
  · by_cases hg : ¬ s.numActive < (s.maxOpenFiles : Int) ∧ s.stoppableQueue = []
    · simp [pullStep, hq, hg, frame_refl]
    · have hgc : ¬((s.maxOpenFiles : Int) ≤ s.numActive ∧ s.stoppableQueue = []) := by
        intro hx
        exact hg ⟨by omega, hx.2⟩
      rcases hw : s.workers[wid]? with _ | w
      · simp [pullStep, hq, getW, hgc, hw, Frame]
      · by_cases hc : w.control = Control.start
        · simp [pullStep, hq, getW, hgc, hw, hc, Frame]
        · by_cases hcl : w.wstate = WState.closed
          · by_cases hh : s.numActive < (s.maxOpenFiles : Int)
            · rcases startW_effs wid true w with he | he <;>
                simp [pullStep, hq, getW, hgc, hw, hc, hcl, hh, he, applyEffsInPull_nil,
                  applyEffsInPull_startFired, setW, Frame] <;> omega
            · rcases hv : s.stoppableQueue with _ | ⟨v, vrest⟩
              · exact absurd ⟨hh, hv⟩ hg
              · rcases hwv : s.workers[v]? with _ | wv
                · simp [pullStep, hq, getW, hgc, hw, hc, hcl, hh, hv, hwv, Frame]
                · rcases stopW_effs v wv with he | he <;>
                    simp [pullStep, hq, getW, hgc, hw, hc, hcl, hh, hv, hwv, he,
                      applyEffsInPull_nil, applyEffsInPull_stopFired, setW, Frame] <;> omega
          · rcases startW_effs wid false w with he | he <;>
              simp [pullStep, hq, getW, hgc, hw, hc, hcl, he, applyEffsInPull_nil,
                applyEffsInPull_startFired, setW, Frame] <;> omega

theorem pullF_frame : ∀ (n : Nat) (s s' : Sys), pullF n s = some s' → Frame s s' := by
  intro n
  induction n with
  | zero => intro s s' h; simp [pullF] at h
  | succ n ih =>
    intro s s' h
    rcases hp : pullStep s with ⟨s1, b⟩
    have hf1 : Frame s s1 := by have := pullStep_frame s; rwa [hp] at this
    cases b
    · simp only [pullF, hp] at h
      cases h
      exact hf1
    · simp only [pullF, hp] at h
      exact frame_trans hf1 (ih s1 s' h)

theorem pull_frame (s : Sys) : Frame s (pull s) := by
  have hs := pullF_sufficient (pullMeasure s + 1) s (by omega)
  rcases ho : pullF (pullMeasure s + 1) s with _ | s'
  · rw [ho] at hs; simp at hs
  · have := pullF_frame _ s s' ho
    simpa [pull, ho] using this

theorem applySysEffs_frame (effs : List Eff) : ∀ s : Sys,
    Frame s (applySysEffs s effs) := by
  induction effs with
  | nil => intro s; exact frame_refl s
  | cons e rest ih =>
    intro s
    have hstep : applySysEffs s (e :: rest) =
        applySysEffs (match e with
          | .startFired wid => pull { s with stoppableQueue := s.stoppableQueue ++ [wid] }
          | .stopFired _ => pull { s with numActive := s.numActive - 1 }) rest := rfl
    rw [hstep]
    cases e with
    | startFired wid =>
      refine frame_trans (frame_trans ?_ (pull_frame _)) (ih _)
      exact ⟨rfl, rfl, rfl, rfl, rfl, Or.inl (le_refl _)⟩
    | stopFired wid =>
      refine frame_trans (frame_trans ?_ (pull_frame _)) (ih _)
      exact ⟨rfl, rfl, rfl, rfl, rfl, Or.inl (by simp)⟩

theorem setW_length (s : Sys) (wid : Nat) (w : Worker) :
    (setW s wid w).workers.length = s.workers.length := by
  simp [setW]

theorem commitTick_frame (s : Sys) (wid : Nat) (w : Worker) :
    Frame s (commitTick s wid w) := by
  refine frame_trans ?_ (applySysEffs_frame _ _)
  exact ⟨rfl, rfl, rfl, rfl, by simp [setW], Or.inl (le_refl _)⟩

theorem frame_push_pull (s0 : Sys) (wid : Nat) (effs : List Eff) :
    Frame s0 (pull { applySysEffs s0 effs with
      scheduleQueue := (applySysEffs s0 effs).scheduleQueue ++ [wid] }) := by
  refine frame_trans (applySysEffs_frame effs s0) (frame_trans ?_ (pull_frame _))
  exact ⟨rfl, rfl, rfl, rfl, rfl, Or.inl (le_refl _)⟩

theorem submitOp_frame (s : Sys) (wid : Nat) (op : Op) :
    Frame s (submitOp s wid op) := by
  unfold submitOp
  rcases hw : getW s wid with _ | w
  · exact ⟨rfl, rfl, rfl, rfl, rfl, Or.inl (le_refl _)⟩
  · simp only [hw]
    have hbase : Frame s
        { setW s wid (addW wid w op).w with
            pendingOs := s.pendingOs ++ (addW wid w op).reqs
            crashed := s.crashed || (addW wid w op).crash } :=
      ⟨rfl, rfl, rfl, rfl, by simp [setW], Or.inl (le_refl _)⟩
    by_cases hcr : (addW wid w op).crash = true
    · rw [if_pos hcr]
      exact hbase
    · rw [if_neg hcr]
      exact frame_trans hbase (frame_push_pull _ wid _)

/-! The FD bound invariant (claim C1). -/

theorem frame_bound {s s' : Sys} (hf : Frame s s') (h : FdBound s) : FdBound s' := by
  obtain ⟨_, _, hm, _, _, hn⟩ := hf
  unfold FdBound at *
  rw [hm]
  omega

theorem commitTick_bound (s : Sys) (wid : Nat) (w : Worker) (h : FdBound s) :
    FdBound (commitTick s wid w) :=
  frame_bound (commitTick_frame s wid w) h

theorem submitOp_bound (s : Sys) (wid : Nat) (op : Op) (h : FdBound s) :
    FdBound (submitOp s wid op) :=
  frame_bound (submitOp_frame s wid op) h

theorem storageFor_bound (s : Sys) (p : String) (h : FdBound s) :
    FdBound (storageFor s p).1 := by
  unfold storageFor
  rcases lookupPI s p with _ | wid
  · exact h
  · exact h

theorem stepReadDone_bound (s : Sys) (wid opId : Nat) (res : OsRead) (h : FdBound s)
    (s' : Sys) (he : stepReadDone s wid opId res = some s') : FdBound s' := by
  unfold stepReadDone at he
  all_goals try split at he
  all_goals try split at he
  all_goals try split at he
  all_goals try split at he
  all_goals try split at he
  all_goals try cases he
  all_goals first
    | exact commitTick_bound _ _ _ h
    | exact h

theorem stepWriteDone_bound (s : Sys) (wid opId : Nat) (res : OsWrite) (h : FdBound s)
    (s' : Sys) (he : stepWriteDone s wid opId res = some s') : FdBound s' := by
  unfold stepWriteDone at he
  all_goals try split at he
  all_goals try split at he
  all_goals try split at he
  all_goals try split at he
  all_goals try split at he
  all_goals try cases he
  all_goals first
    | exact commitTick_bound _ _ _ h
    | exact h

theorem stepMkdirDone_bound (s : Sys) (wid : Nat) (h : FdBound s)
    (s' : Sys) (he : stepMkdirDone s wid = some s') : FdBound s' := by
  unfold stepMkdirDone at he
  all_goals try split at he
  all_goals try split at he
  all_goals try cases he
  all_goals exact h

theorem stepOpenDone_bound (s : Sys) (wid fd : Nat) (h : FdBound s)
    (s' : Sys) (he : stepOpenDone s wid fd = some s') : FdBound s' := by
  unfold stepOpenDone at he
  all_goals try split at he
  all_goals try split at he
  all_goals try split at he
  all_goals try cases he
  all_goals first
    | exact commitTick_bound _ _ _ h
    | exact h

theorem stepCloseDone_bound (s : Sys) (wid : Nat) (h : FdBound s)
    (s' : Sys) (he : stepCloseDone s wid = some s') : FdBound s' := by
  unfold stepCloseDone at he
  all_goals try split at he
  all_goals try split at he
  all_goals try split at he
  all_goals try cases he
  all_goals first
    | exact commitTick_bound _ _ _ h
    | exact h

theorem step_bound (s : Sys) (e : Ev) (h : FdBound s)
    (s' : Sys) (he : step s e = some s') : FdBound s' := by
  cases e with
  | evStorageFor p =>
    simp only [step] at he
    split at he
    · cases he; exact h
    · cases he; exact storageFor_bound s p h
  | evRead p opId offset size =>
    simp only [step] at he
    split at he
    · cases he; exact h
    · split at he
      · cases he; exact submitOp_bound _ _ _ h
      · cases he
  | evWrite p opId offset data =>
    simp only [step] at he
    split at he
    · cases he; exact h
    · split at he
      · cases he; exact submitOp_bound _ _ _ h
      · cases he
  | evMkdirDone wid =>
    simp only [step] at he
    split at he
    · cases he; exact h
    · exact stepMkdirDone_bound s wid h s' he
  | evOpenDone wid fd =>
    simp only [step] at he
    split at he
    · cases he; exact h
    · exact stepOpenDone_bound s wid fd h s' he
  | evCloseDone wid =>
    simp only [step] at he
    split at he
    · cases he; exact h
    · exact stepCloseDone_bound s wid h s' he
  | evReadDone wid opId res =>
    simp only [step] at he
    split at he
    · cases he; exact h
    · exact stepReadDone_bound s wid opId res h s' he
  | evWriteDone wid opId res =>
    simp only [step] at he
    split at he
    · cases he; exact h
    · exact stepWriteDone_bound s wid opId res h s' he

theorem stepD_bound (s : Sys) (e : Ev) (h : FdBound s) : FdBound (stepD s e) := by
  rcases hs : step s e with _ | s'
  · simpa [stepD, hs] using h
  · rw [stepD, hs, Option.getD_some]
    exact step_bound s e h s' hs

theorem run_bound : ∀ (evs : List Ev) (s : Sys), FdBound s → FdBound (run s evs) := by
  intro evs
  induction evs with
  | nil => intro s h; exact h
  | cons e rest ih =>
    intro s h
    exact ih (stepD s e) (stepD_bound s e h)

theorem mkSys_bound (d : String) (m : Nat) (s0 : Sys) (h : mkSys d m = some s0) :
    FdBound s0 := by
  unfold mkSys at h
  split at h
  · cases h
  · cases h
    unfold FdBound
    simp

/-! Helper lemmas for the claim statements. -/

theorem commitTick_completions (s : Sys) (wid : Nat) (w : Worker) :
    (commitTick s wid w).completions = s.completions :=
  (commitTick_frame s wid w).1

theorem padBuf_length (size : Nat) (bytes : List Nat) :
    (padBuf size bytes).length = size := by
  simp [padBuf, List.length_take]
  omega

theorem openW_ops (wid : Nat) (w : Worker) : (openW wid w).w.ops = w.ops := by
  unfold openW
  split
  · split <;> rfl
  · rfl

theorem addW_closed_ops (wid : Nat) (w : Worker) (op : Op)
    (h : w.wstate = WState.closed) :
    (addW wid w op).w.ops = w.ops ++ [op] := by
  unfold addW
  rcases hc : w.control <;> simp only [tick, hc, h]
  · rw [openW_ops]
  · split <;> rfl

/-! The claim theorems. -/

/-- C1: at every moment during any execution the scheduler's counter
satisfies `numActivePathWorkers ≤ maxOpenFiles`: for every scheduler built
by the constructor and every sequence of client calls and OS completions,
the state reached satisfies the bound (`pull` increments the counter only
after observing headroom in the same iteration, stop completions only
decrement it, and no other code path modifies it). -/
theorem c1_fd_bound (d : String) (m : Nat) (s0 : Sys) (evs : List Ev)
    (h : mkSys d m = some s0) :
    (run s0 evs).numActive ≤ ((run s0 evs).maxOpenFiles : Int) :=
  run_bound evs s0 (mkSys_bound d m s0 h)

/-- Witness for C1 at a concrete configuration and trace. -/
theorem c1_fd_bound_witness :
    mkSys "d" 2 = some initD2 ∧
    (run initD2 zeroReadTrace).numActive ≤
      ((run initD2 zeroReadTrace).maxOpenFiles : Int) :=
  ⟨by rfl, c1_fd_bound "d" 2 initD2 zeroReadTrace (by rfl)⟩

/-- C10: every invocation of `pull()` terminates after finitely many loop
iterations: the fuelled loop returns within `pullMeasure s + 1` iterations
from every state, because each continuing iteration strictly shrinks
`2·|scheduleQueue| + |stoppableQueue|`. -/
theorem c10_pull_terminates (s : Sys) :
    (pullF (pullMeasure s + 1) s).isSome = true :=
  pullF_sufficient (pullMeasure s + 1) s (Nat.lt_succ_self _)

/-- C8: per-worker dispatch order is FIFO: `execIfOps` empties the op
queue front to back, issuing the OS requests in exactly queue order, and
`add` appends to the back of the queue (shown for a closed worker, where
the triggering tick leaves the queue untouched). -/
theorem c8_fifo_dispatch :
    (∀ (wid : Nat) (w : Worker),
        (w.wstate = WState.opened ∨ w.wstate = WState.draining) →
        validOps w.ops = true →
        (execIfOps wid w).reqs = w.ops.map (reqOfOp wid w.fd) ∧
          (execIfOps wid w).w.ops = []) ∧
    ∀ (wid : Nat) (w : Worker) (op : Op), w.wstate = WState.closed →
      (addW wid w op).w.ops = w.ops ++ [op] := by
  constructor
  · intro wid w hst hv
    exact ⟨(execIfOps_valid wid w hst hv).1, (execIfOps_valid wid w hst hv).2.1⟩
  · intro wid w op hcl
    exact addW_closed_ops wid w op hcl

/-- Witness for C8 on a concrete two-op worker and a concrete closed
worker. -/
theorem c8_fifo_dispatch_witness :
    ((execIfOps 0 twoOpsWorker).reqs =
        twoOpsWorker.ops.map (reqOfOp 0 twoOpsWorker.fd) ∧
      (execIfOps 0 twoOpsWorker).w.ops = []) ∧
    (addW 0 closedOneOpWorker ⟨9, 1, OpKind.read 1⟩).w.ops =
      closedOneOpWorker.ops ++ [⟨9, 1, OpKind.read 1⟩] :=
  ⟨c8_fifo_dispatch.1 0 twoOpsWorker (Or.inl rfl) (by decide),
    c8_fifo_dispatch.2 0 closedOneOpWorker ⟨9, 1, OpKind.read 1⟩ rfl⟩

/-- C5, counterexample: a read of size 0 is not rejected synchronously at
the API boundary.  After `storageFor "a"` and `read(0, 0, cb)` on a fresh
scheduler, no assertion has fired, no completion was delivered, and the
zero-size op sits enqueued on the worker. -/
theorem c5_not_rejected_synchronously :
    (run initD2 zeroReadTrace).crashed = false ∧
    wOpsOf (run initD2 zeroReadTrace) 0 = some [⟨0, 0, OpKind.read 0⟩] ∧
    (run initD2 zeroReadTrace).completions = [] :=
  ⟨by decide, by decide, by decide⟩

/-- C5, amended: missing configuration (empty `dirPath` or zero
`maxOpenFiles`) is rejected synchronously at construction; a read with
size ≤ 0 is instead enqueued and fails the `assert(readSize > 0)` in
`execIfOps` only when the op is dispatched on an open worker. -/
theorem c5_amended_rejection :
    (∀ m : Nat, mkSys "" m = none) ∧
    (∀ d : String, mkSys d 0 = none) ∧
    ∀ (wid : Nat) (w : Worker) (opId offset : Nat) (rest : List Op),
      w.wstate = WState.opened → w.ops = ⟨opId, offset, OpKind.read 0⟩ :: rest →
      (execIfOps wid w).crash = true := by
  refine ⟨?_, ?_, ?_⟩
  · intro m
    simp [mkSys]
  · intro d
    simp [mkSys]
  · intro wid w opId offset rest hst hops
    simp [execIfOps, hops, execLoop, hst]

/-- Witness for C5's amended statement at concrete inputs. -/
theorem c5_amended_rejection_witness :
    mkSys "" 5 = none ∧ mkSys "dir" 0 = none ∧
    (execIfOps 0 { openedWorker with ops := [⟨0, 0, OpKind.read 0⟩] }).crash = true :=
  ⟨c5_amended_rejection.1 5, c5_amended_rejection.2.1 "dir",
    c5_amended_rejection.2.2 0 _ 0 0 [] rfl rfl⟩

/-- C2: read completion policy.  With a pending OS read of `size` bytes
for op `opId`: an OS error is delivered to the op's completion as that
error with no data; zero bytes read is delivered as the short-read error
with no data; exactly `size` bytes read is delivered as success with a
buffer of length exactly `size`; any other positive byte count fails the
`assert(read === readSize)` (crash) and delivers nothing. -/
theorem c2_read_completion (s : Sys) (wid opId fd offset size : Nat)
    (restOs : List OsReq) (w : Worker)
    (hx : extractFirst (isOsRead wid opId) s.pendingOs =
      some (OsReq.osRead wid opId fd offset size, restOs))
    (hw : getW s wid = some w) (hcr : s.crashed = false) :
    (∀ e : Nat,
      (step s (Ev.evReadDone wid opId (OsRead.err e))).map Sys.completions =
        some (s.completions ++ [(opId, CbRes.readErr (RdErr.osErr e))])) ∧
    (∀ bytes : List Nat,
      (step s (Ev.evReadDone wid opId (OsRead.ok 0 bytes))).map Sys.completions =
        some (s.completions ++ [(opId, CbRes.readErr RdErr.shortRead)])) ∧
    (∀ bytes : List Nat, 0 < size →
      (step s (Ev.evReadDone wid opId (OsRead.ok size bytes))).map Sys.completions =
        some (s.completions ++ [(opId, CbRes.readOk (padBuf size bytes))]) ∧
      (padBuf size bytes).length = size) ∧
    ∀ (n : Nat) (bytes : List Nat), 0 < n → n ≠ size →
      (step s (Ev.evReadDone wid opId (OsRead.ok n bytes))).map Sys.crashed =
          some true ∧
      (step s (Ev.evReadDone wid opId (OsRead.ok n bytes))).map Sys.completions =
        some s.completions := by
  have hstep : ∀ res, step s (Ev.evReadDone wid opId res) =
      stepReadDone s wid opId res := by
    intro res
    unfold step
    rw [hcr]
    rfl
  refine ⟨?_, ?_, ?_, ?_⟩
  · intro e
    rw [hstep]
    simp only [stepReadDone, hx, hw]
    simp [commitTick_completions]
  · intro bytes
    rw [hstep]
    simp only [stepReadDone, hx, hw]
    simp [commitTick_completions]
  · intro bytes hpos
    have hz : ¬ size = 0 := by omega
    constructor
    · rw [hstep]
      simp only [stepReadDone, hx, hw]
      simp [hz, commitTick_completions]
    · exact padBuf_length size bytes
  · intro n bytes hn hne
    have hz : ¬ n = 0 := by omega
    constructor
    · rw [hstep]
      simp only [stepReadDone, hx, hw]
      simp [hz, hne, setW]
    · rw [hstep]
      simp only [stepReadDone, hx, hw]
      simp [hz, hne, setW]

/-- Witness for C2 on a concrete pending read. -/
theorem c2_read_completion_witness :
    (step pendingReadSys (Ev.evReadDone 0 5 (OsRead.err 7))).map Sys.completions =
      some (pendingReadSys.completions ++ [(5, CbRes.readErr (RdErr.osErr 7))]) :=
  (c2_read_completion pendingReadSys 0 5 3 0 4 [] openedWorker rfl rfl rfl).1 7

/-- C9: write completion policy.  With a pending OS write of `data` for op
`opId`: an OS error is delivered to the op's completion as that error;
success reporting exactly `data.length` bytes written is delivered as
success (`null`); success reporting any other count fails the
`assert(written === writeData.length)` (crash) and delivers nothing. -/
theorem c9_write_completion (s : Sys) (wid opId fd offset : Nat)
    (data : List Nat) (restOs : List OsReq) (w : Worker)
    (hx : extractFirst (isOsWrite wid opId) s.pendingOs =
      some (OsReq.osWrite wid opId fd offset data, restOs))
    (hw : getW s wid = some w) (hcr : s.crashed = false) :
    (∀ e : Nat,
      (step s (Ev.evWriteDone wid opId (OsWrite.err e))).map Sys.completions =
        some (s.completions ++ [(opId, CbRes.writeErr e)])) ∧
    ((step s (Ev.evWriteDone wid opId (OsWrite.ok data.length))).map Sys.completions =
        some (s.completions ++ [(opId, CbRes.writeOk)])) ∧
    ∀ written : Nat, written ≠ data.length →
      (step s (Ev.evWriteDone wid opId (OsWrite.ok written))).map Sys.crashed =
          some true ∧
      (step s (Ev.evWriteDone wid opId (OsWrite.ok written))).map Sys.completions =
        some s.completions := by
  have hstep : ∀ res, step s (Ev.evWriteDone wid opId res) =
      stepWriteDone s wid opId res := by
    intro res
    unfold step
    rw [hcr]
    rfl
  refine ⟨?_, ?_, ?_⟩
  · intro e
    rw [hstep]
    simp only [stepWriteDone, hx, hw]
    simp [commitTick_completions]
  · rw [hstep]
    simp only [stepWriteDone, hx, hw]
    simp [commitTick_completions]
  · intro written hne
    constructor
    · rw [hstep]
      simp only [stepWriteDone, hx, hw]
      simp [hne, setW]
    · rw [hstep]
      simp only [stepWriteDone, hx, hw]
      simp [hne, setW]

/-- Witness for C9 on a concrete pending write. -/
theorem c9_write_completion_witness :
    (step pendingWriteSys (Ev.evWriteDone 0 5 (OsWrite.ok 3))).map Sys.completions =
      some (pendingWriteSys.completions ++ [(5, CbRes.writeOk)]) :=
  (c9_write_completion pendingWriteSys 0 5 3 0 [10, 20, 30] []
    { openedWorker with inFlightReads := 0, inFlightWrites := 1 } rfl rfl rfl).2.1

/-! Helper lemmas for the rescue and eviction claims. -/

theorem getW_lt {s : Sys} {wid : Nat} {w : Worker} (h : getW s wid = some w) :
    wid < s.workers.length := by
  unfold getW at h
  rcases List.getElem?_eq_some_iff.mp h with ⟨hl, _⟩
  exact hl

theorem getW_set_self {s : Sys} {wid : Nat} {w : Worker} (w' : Worker)
    (h : getW s wid = some w) :
    (s.workers.set wid w')[wid]? = some w' :=
  List.getElem?_set_eq_of_lt w' (getW_lt h)

theorem closeIfDrained_stopCb (wid : Nat) (w : Worker) :
    (closeIfDrained wid w).w.stopCb = w.stopCb := by
  unfold closeIfDrained
  split
  · split <;> rfl
  · rfl

theorem closeIfDrained_crash_draining (wid : Nat) (w : Worker)
    (h : w.wstate = WState.draining) : (closeIfDrained wid w).crash = false := by
  unfold closeIfDrained
  rw [if_pos (Or.inr h)]
  split <;> rfl

theorem startW_rescue (wid : Nat) (w : Worker)
    (hst : w.wstate = WState.draining) (hscb : w.startCb = false)
    (hv : validOps w.ops = true) :
    (startW wid false w).w.wstate = WState.opened ∧
    (startW wid false w).w.control = Control.start ∧
    (startW wid false w).w.ops = [] ∧
    (startW wid false w).w.fd = w.fd ∧
    (startW wid false w).reqs = w.ops.map (reqOfOp wid w.fd) ∧
    (startW wid false w).effs = [] ∧
    (startW wid false w).crash = false := by
  have h1 : startW wid false w =
      tickStartOpened wid { w with control := Control.start, wstate := WState.opened } := by
    unfold startW tick
    simp [hst]
  have hex := execIfOps_valid wid
    { w with control := Control.start, wstate := WState.opened } (Or.inl rfl)
    (by simpa using hv)
  have hscb' : (execIfOps wid
      { w with control := Control.start, wstate := WState.opened }).w.startCb = false := by
    rw [execIfOps_startCb]
    simpa using hscb
  rw [h1]
  unfold tickStartOpened
  simp only [hex.2.2.1, hscb']
  simp [hex.1, hex.2.1, execIfOps_wstate, execIfOps_control, execIfOps_fd]

theorem stopW_evict (v : Nat) (wv : Worker) (hvst : wv.wstate = WState.opened)
    (hvscb : wv.stopCb = false) (hvops : validOps wv.ops = true) :
    (stopW v wv).w.control = Control.stop ∧
    (stopW v wv).w.stopCb = true ∧
    (stopW v wv).effs = [] ∧
    (stopW v wv).crash = false := by
  obtain ⟨fp, fdm, ctl, st, fd, ops, ifr, ifw, scb, stcb, don⟩ := wv
  simp only at hvst hvscb hvops
  subst hvst
  subst hvscb
  have hex := execIfOps_valid v
    ⟨fp, fdm, Control.stop, WState.opened, fd, ops, ifr, ifw, scb, true, don⟩
    (Or.inl rfl) hvops
  unfold stopW tick
  simp [hex.2.2.1, closeIfDrained_control, closeIfDrained_stopCb,
    closeIfDrained_crash_draining, execIfOps_control, execIfOps_stopCb]

/-- C3: when `pull` dequeues a mid-stop worker (control `Stop`, state
`Draining`), it calls `start(null)` and does not change
`numActivePathWorkers`; the worker flips back to `Opened` under `Start`
keeping the same file descriptor, its newly queued ops are all dispatched
to the OS in order, and no open or close request is issued for it. -/
theorem c3_rescue (s : Sys) (wid : Nat) (rest : List Nat) (w : Worker)
    (hq : s.scheduleQueue = wid :: rest)
    (hguard : s.numActive < (s.maxOpenFiles : Int) ∨ ¬ s.stoppableQueue = [])
    (hw : getW s wid = some w)
    (hc : w.control = Control.stop)
    (hst : w.wstate = WState.draining)
    (hscb : w.startCb = false)
    (hv : validOps w.ops = true) :
    (pullStep s).2 = true ∧
    (pullStep s).1.numActive = s.numActive ∧
    (pullStep s).1.stoppableQueue = s.stoppableQueue ∧
    (pullStep s).1.crashed = s.crashed ∧
    wStateOf (pullStep s).1 wid = some WState.opened ∧
    wControlOf (pullStep s).1 wid = some Control.start ∧
    wOpsOf (pullStep s).1 wid = some [] ∧
    wFdOf (pullStep s).1 wid = some w.fd ∧
    (pullStep s).1.pendingOs = s.pendingOs ++ w.ops.map (reqOfOp wid w.fd) ∧
    ∀ r ∈ w.ops.map (reqOfOp wid w.fd), isDataReq r = true := by
  have hgc : ¬((s.maxOpenFiles : Int) ≤ s.numActive ∧ s.stoppableQueue = []) := by
    intro hx
    rcases hguard with h | h
    · have := hx.1
      omega
    · exact h hx.2
  obtain ⟨r1, r2, r3, r4, r5, r6, r7⟩ := startW_rescue wid w hst hscb hv
  have hcs : ¬ w.control = Control.start := by
    rw [hc]
    intro hh
    cases hh
  have hcl : ¬ w.wstate = WState.closed := by
    rw [hst]
    intro hh
    cases hh
  have hw' : s.workers[wid]? = some w := hw
  have hset : (s.workers.set wid (startW wid false w).w)[wid]? =
      some (startW wid false w).w := getW_set_self _ hw
  have hdata : ∀ r ∈ w.ops.map (reqOfOp wid w.fd), isDataReq r = true := by
    intro r hr
    rcases List.mem_map.mp hr with ⟨op, hop, hrr⟩
    rw [← hrr]
    rcases hk : op.kind with size | data <;> simp [reqOfOp, hk, isDataReq]
  refine ⟨?_, ?_, ?_, ?_, ?_, ?_, ?_, ?_, ?_, hdata⟩ <;>
    simp [pullStep, hq, getW, hgc, hw', hcs, hcl, r1, r2, r3, r4, r5, r6, r7,
      applyEffsInPull_nil, wStateOf, wControlOf, wOpsOf, wFdOf, setW, hset]

/-- Witness for C3 on a concrete mid-stop draining worker. -/
theorem c3_rescue_witness :
    (pullStep rescueSys).2 = true ∧
    wStateOf (pullStep rescueSys).1 0 = some WState.opened ∧
    wFdOf (pullStep rescueSys).1 0 = some drainingWorker.fd ∧
    (pullStep rescueSys).1.numActive = rescueSys.numActive :=
  ⟨(c3_rescue rescueSys 0 [] drainingWorker rfl (Or.inl (by decide)) rfl rfl rfl rfl
      (by decide)).1,
   (c3_rescue rescueSys 0 [] drainingWorker rfl (Or.inl (by decide)) rfl rfl rfl rfl
      (by decide)).2.2.2.2.1,
   (c3_rescue rescueSys 0 [] drainingWorker rfl (Or.inl (by decide)) rfl rfl rfl rfl
      (by decide)).2.2.2.2.2.2.2.1,
   (c3_rescue rescueSys 0 [] drainingWorker rfl (Or.inl (by decide)) rfl rfl rfl rfl
      (by decide)).2.1⟩

/-- C6: when `pull` handles a `Stop`/`Closed` worker with no FD headroom
and a non-empty stoppable queue, it pops the least-recently-enqueued
stoppable worker, calls `stop` on it (registering the scheduler's stop
callback, which decrements `numActivePathWorkers` and re-enters `pull`),
and pushes the demanding worker back onto the front of the schedule
queue. -/
theorem c6_eviction (s : Sys) (wid : Nat) (rest : List Nat) (w : Worker)
    (v : Nat) (vrest : List Nat) (wv : Worker)
    (hq : s.scheduleQueue = wid :: rest)
    (hw : getW s wid = some w)
    (hc : w.control = Control.stop)
    (hcl : w.wstate = WState.closed)
    (hh : ¬ s.numActive < (s.maxOpenFiles : Int))
    (hv : s.stoppableQueue = v :: vrest)
    (hwv : getW s v = some wv)
    (hvst : wv.wstate = WState.opened)
    (hvscb : wv.stopCb = false)
    (hvops : validOps wv.ops = true) :
    (pullStep s).2 = true ∧
    (pullStep s).1.scheduleQueue = wid :: rest ∧
    (pullStep s).1.stoppableQueue = vrest ∧
    (pullStep s).1.numActive = s.numActive ∧
    wControlOf (pullStep s).1 v = some Control.stop ∧
    wStopCbOf (pullStep s).1 v = some true ∧
    ∀ t : Sys, applySysEffs t [Eff.stopFired v] =
      pull { t with numActive := t.numActive - 1 } := by
  have hgc : ¬((s.maxOpenFiles : Int) ≤ s.numActive ∧ s.stoppableQueue = []) := by
    intro hx
    rw [hv] at hx
    cases hx.2
  obtain ⟨e1, e2, e3, e4⟩ := stopW_evict v wv hvst hvscb hvops
  have hcs : ¬ w.control = Control.start := by
    rw [hc]
    intro hh2
    cases hh2
  have hcl' : ¬ ¬ w.wstate = WState.closed := by
    rw [hcl]
    simp
  have hw' : s.workers[wid]? = some w := hw
  have hwv' : s.workers[v]? = some wv := hwv
  have hset : (s.workers.set v (stopW v wv).w)[v]? =
      some (stopW v wv).w := getW_set_self _ hwv
  have hcb : ∀ t : Sys, applySysEffs t [Eff.stopFired v] =
      pull { t with numActive := t.numActive - 1 } := fun t => rfl
  refine ⟨?_, ?_, ?_, ?_, ?_, ?_, hcb⟩ <;>
    simp [pullStep, hq, getW, hgc, hw', hcs, hcl, hh, hv, hwv', e1, e2, e3, e4,
      applyEffsInPull_nil, wControlOf, wStopCbOf, setW, hset]

/-- Witness for C6 on a concrete saturated scheduler. -/
theorem c6_eviction_witness :
    (pullStep evictSys).2 = true ∧
    (pullStep evictSys).1.scheduleQueue = [0] ∧
    (pullStep evictSys).1.stoppableQueue = [] ∧
    wStopCbOf (pullStep evictSys).1 1 = some true :=
  ⟨(c6_eviction evictSys 0 [] { closedOneOpWorker with stopCb := false } 1 []
      { openedWorker with inFlightReads := 0 } rfl rfl rfl rfl (by decide) rfl rfl rfl rfl
      (by decide)).1,
   (c6_eviction evictSys 0 [] { closedOneOpWorker with stopCb := false } 1 []
      { openedWorker with inFlightReads := 0 } rfl rfl rfl rfl (by decide) rfl rfl rfl rfl
      (by decide)).2.1,
   (c6_eviction evictSys 0 [] { closedOneOpWorker with stopCb := false } 1 []
      { openedWorker with inFlightReads := 0 } rfl rfl rfl rfl (by decide) rfl rfl rfl rfl
      (by decide)).2.2.1,
   (c6_eviction evictSys 0 [] { closedOneOpWorker with stopCb := false } 1 []
      { openedWorker with inFlightReads := 0 } rfl rfl rfl rfl (by decide) rfl rfl rfl rfl
      (by decide)).2.2.2.2.2.1⟩

/-! Interface-map stability: only `storageFor` ever touches
`pathInterfaces`, and it only appends. -/

theorem find?_append_some {α : Type} (l l' : List α) (q : α → Bool) (x : α)
    (h : l.find? q = some x) : (l ++ l').find? q = some x := by
  rw [List.find?_append, h]
  rfl

theorem commitTick_interfaces (s : Sys) (wid : Nat) (w : Worker) :
    (commitTick s wid w).interfaces = s.interfaces :=
  (commitTick_frame s wid w).2.1

theorem submitOp_interfaces (s : Sys) (wid : Nat) (op : Op) :
    (submitOp s wid op).interfaces = s.interfaces :=
  (submitOp_frame s wid op).2.1

theorem stepReadDone_interfaces (s : Sys) (wid opId : Nat) (res : OsRead)
    (s' : Sys) (he : stepReadDone s wid opId res = some s') :
    s'.interfaces = s.interfaces := by
  unfold stepReadDone at he
  all_goals try split at he
  all_goals try split at he
  all_goals try split at he
  all_goals try split at he
  all_goals try split at he
  all_goals try cases he
  all_goals first
    | exact commitTick_interfaces _ _ _
    | rfl

theorem stepWriteDone_interfaces (s : Sys) (wid opId : Nat) (res : OsWrite)
    (s' : Sys) (he : stepWriteDone s wid opId res = some s') :
    s'.interfaces = s.interfaces := by
  unfold stepWriteDone at he
  all_goals try split at he
  all_goals try split at he
  all_goals try split at he
  all_goals try split at he
  all_goals try split at he
  all_goals try cases he
  all_goals first
    | exact commitTick_interfaces _ _ _
    | rfl

theorem stepMkdirDone_interfaces (s : Sys) (wid : Nat)
    (s' : Sys) (he : stepMkdirDone s wid = some s') :
    s'.interfaces = s.interfaces := by
  unfold stepMkdirDone at he
  all_goals try split at he
  all_goals try split at he
  all_goals try cases he
  all_goals rfl

theorem stepOpenDone_interfaces (s : Sys) (wid fd : Nat)
    (s' : Sys) (he : stepOpenDone s wid fd = some s') :
    s'.interfaces = s.interfaces := by
  unfold stepOpenDone at he
  all_goals try split at he
  all_goals try split at he
  all_goals try split at he
  all_goals try cases he
  all_goals first
    | exact commitTick_interfaces _ _ _
    | rfl

theorem stepCloseDone_interfaces (s : Sys) (wid : Nat)
    (s' : Sys) (he : stepCloseDone s wid = some s') :
    s'.interfaces = s.interfaces := by
  unfold stepCloseDone at he
  all_goals try split at he
  all_goals try split at he
  all_goals try split at he
  all_goals try cases he
  all_goals first
    | exact commitTick_interfaces _ _ _
    | rfl

theorem lookupPI_step_mono (s : Sys) (e : Ev) (p : String) (wid : Nat)
    (h : lookupPI s p = some wid) (s' : Sys) (he : step s e = some s') :
    lookupPI s' p = some wid := by
  have hmap : ∀ t : Sys, t.interfaces = s.interfaces → lookupPI t p = some wid := by
    intro t ht
    unfold lookupPI at *
    rw [ht]
    exact h
  cases e with
  | evStorageFor q =>
    simp only [step] at he
    split at he
    · cases he
      exact h
    · cases he
      unfold storageFor
      rcases hl : lookupPI s q with _ | n
      · simp only [hl]
        unfold lookupPI at h ⊢
        rcases hfind : s.interfaces.find? (fun kv => kv.1 = p) with _ | kv
        · rw [hfind] at h
          cases h
        · rw [find?_append_some _ _ _ _ hfind]
          rw [hfind] at h
          exact h
      · simp only [hl]
        exact h
  | evRead q opId offset size =>
    simp only [step] at he
    split at he
    · cases he
      exact h
    · split at he
      · cases he
        exact hmap _ (submitOp_interfaces _ _ _)
      · cases he
  | evWrite q opId offset data =>
    simp only [step] at he
    split at he
    · cases he
      exact h
    · split at he
      · cases he
        exact hmap _ (submitOp_interfaces _ _ _)
      · cases he
  | evMkdirDone wid2 =>
    simp only [step] at he
    split at he
    · cases he
      exact h
    · exact hmap _ (stepMkdirDone_interfaces _ _ _ he)
  | evOpenDone wid2 fd =>
    simp only [step] at he
    split at he
    · cases he
      exact h
    · exact hmap _ (stepOpenDone_interfaces _ _ _ _ he)
  | evCloseDone wid2 =>
    simp only [step] at he
    split at he
    · cases he
      exact h
    · exact hmap _ (stepCloseDone_interfaces _ _ _ he)
  | evReadDone wid2 opId res =>
    simp only [step] at he
    split at he
    · cases he
      exact h
    · exact hmap _ (stepReadDone_interfaces _ _ _ _ _ he)
  | evWriteDone wid2 opId res =>
    simp only [step] at he
    split at he
    · cases he
      exact h
    · exact hmap _ (stepWriteDone_interfaces _ _ _ _ _ he)

/-- C7: `storageFor` is idempotent: after `storageFor p`, calling it again
returns the identical handle and leaves the state untouched; on a first
request it allocates exactly one fresh worker (the next heap index) and
memoises it; and no event ever rebinds a short path, so at most one handle
and one worker ever exist per short path. -/
theorem c7_storageFor_memo :
    (∀ (s : Sys) (p : String), storageFor (storageFor s p).1 p = storageFor s p) ∧
    (∀ (s : Sys) (p : String), lookupPI s p = none →
      (storageFor s p).2 = s.workers.length ∧
      lookupPI (storageFor s p).1 p = some (storageFor s p).2 ∧
      (storageFor s p).1.workers.length = s.workers.length + 1) ∧
    ∀ (s : Sys) (e : Ev) (p : String) (wid : Nat),
      lookupPI s p = some wid → lookupPI (stepD s e) p = some wid := by
  have hfound : ∀ (s : Sys) (p : String), lookupPI s p = none →
      lookupPI (storageFor s p).1 p = some s.workers.length := by
    intro s p hl
    unfold storageFor
    simp only [hl]
    unfold lookupPI at hl ⊢
    rcases hfind : s.interfaces.find? (fun kv => kv.1 = p) with _ | kv
    · rw [List.find?_append, hfind]
      simp
    · rw [hfind] at hl
      cases hl
  refine ⟨?_, ?_, ?_⟩
  · intro s p
    rcases hl : lookupPI s p with _ | wid
    · have h2 := hfound s p hl
      unfold storageFor
      simp only [hl]
      unfold storageFor at h2
      simp only [hl] at h2
      rw [h2]
    · unfold storageFor
      simp only [hl]
  · intro s p hl
    refine ⟨?_, ?_, ?_⟩
    · unfold storageFor
      simp only [hl]
    · have h2 := hfound s p hl
      have h3 : (storageFor s p).2 = s.workers.length := by
        unfold storageFor
        simp only [hl]
      rw [h3]
      exact h2
    · unfold storageFor
      simp only [hl]
      simp
  · intro s e p wid h
    rcases hs : step s e with _ | s'
    · simpa [stepD, hs] using h
    · rw [stepD, hs, Option.getD_some]
      exact lookupPI_step_mono s e p wid h s' hs

/-- Witness for C7 on a concrete scheduler and path. -/
theorem c7_storageFor_memo_witness :
    storageFor (storageFor initD2 "a").1 "a" = storageFor initD2 "a" ∧
    lookupPI (stepD (storageFor initD2 "a").1 (Ev.evStorageFor "b")) "a" = some 0 :=
  ⟨c7_storageFor_memo.1 initD2 "a",
   c7_storageFor_memo.2.2 (storageFor initD2 "a").1 (Ev.evStorageFor "b") "a" 0 (by decide)⟩

/-! The stoppable-queue invariant: queue-level lemmas. -/

theorem goodQW_set {q : List Nat} {ws : List Worker} (h : GoodQW q ws)
    (wid : Nat) (w' : Worker) (hw' : wid ∈ q → GoodW w') :
    GoodQW q (ws.set wid w') := by
  refine ⟨h.1, ?_⟩
  intro v hv
  by_cases hvw : v = wid
  · subst hvw
    obtain ⟨w, hw, _⟩ := h.2 v hv
    have hlt : v < ws.length := (List.getElem?_eq_some_iff.mp hw).1
    exact ⟨w', List.getElem?_set_eq_of_lt w' hlt, hw' hv⟩
  · obtain ⟨w, hw, hgw⟩ := h.2 v hv
    refine ⟨w, ?_, hgw⟩
    rw [List.getElem?_set_ne (fun hh => hvw hh.symm)]
    exact hw

theorem goodQW_push {q : List Nat} {ws : List Worker} (h : GoodQW q ws)
    (wid : Nat) (w' : Worker) (hnm : wid ∉ q) (hw : ws[wid]? = some w')
    (hgw : GoodW w') : GoodQW (q ++ [wid]) ws := by
  constructor
  · simp [List.nodup_append, h.1, hnm]
  · intro v hv
    rcases List.mem_append.mp hv with hv | hv
    · exact h.2 v hv
    · have : v = wid := by simpa using hv
      subst this
      exact ⟨w', hw, hgw⟩

theorem goodQW_tail {v : Nat} {vrest : List Nat} {ws : List Worker}
    (h : GoodQW (v :: vrest) ws) : GoodQW vrest ws :=
  ⟨h.1.of_cons, fun u hu => h.2 u (List.mem_cons_of_mem v hu)⟩

theorem goodQW_head_notmem {v : Nat} {vrest : List Nat} {ws : List Worker}
    (h : GoodQW (v :: vrest) ws) : v ∉ vrest := by
  have := h.1
  rw [List.nodup_cons] at this
  exact this.1

theorem goodQW_append {q : List Nat} {ws : List Worker} (h : GoodQW q ws)
    (more : List Worker) : GoodQW q (ws ++ more) := by
  refine ⟨h.1, ?_⟩
  intro v hv
  obtain ⟨w, hw, hgw⟩ := h.2 v hv
  refine ⟨w, ?_, hgw⟩
  rcases List.getElem?_eq_some_iff.mp hw with ⟨hl, _⟩
  rw [List.getElem?_append, if_pos hl]
  exact hw

theorem goodQW_notmem_of_control {q : List Nat} {ws : List Worker}
    (h : GoodQW q ws) (wid : Nat) (w : Worker) (hw : ws[wid]? = some w)
    (hc : ¬ w.control = Control.start) : wid ∉ q := by
  intro hmem
  obtain ⟨w', hw', hgw⟩ := h.2 wid hmem
  rw [hw] at hw'
  cases hw'
  exact hc hgw.2.1

/-! The stoppable-queue invariant: worker-tick lemmas. -/

theorem tick_good (wid : Nat) (w : Worker) (hg : GoodW w) :
    GoodW (tick wid w).w ∧ (tick wid w).effs = [] := by
  obtain ⟨hst, hc, hd, hscb⟩ := hg
  have hscb' : (execIfOps wid w).w.startCb = false := by
    rw [execIfOps_startCb]
    exact hscb
  have hd' : (execIfOps wid w).w.drainedOnce = true := execIfOps_drainedOnce_mono wid w hd
  simp only [tick, hc, hst]
  unfold tickStartOpened
  by_cases hcr : (execIfOps wid w).crash = true <;>
    simp [GoodW, hcr, hscb', hd', execIfOps_wstate, execIfOps_control, hst, hc]

theorem tick_startFired_good (wid : Nat) (w : Worker)
    (h : (tick wid w).effs = [Eff.startFired wid]) :
    GoodW (tick wid w).w := by
  obtain ⟨fp, fdm, ctl, st, fd, ops, ifr, ifw, scb, stcb, don⟩ := w
  rcases ctl <;> rcases st <;> simp only [tick] at h ⊢
  · simp at h
  · simp at h
  · obtain ⟨h1, h2, h3, h4⟩ := tickStartOpened_startFired wid _ (by rw [h]; simp)
    exact ⟨h1, h2, h3, h4⟩
  · obtain ⟨h1, h2, h3, h4⟩ := tickStartOpened_startFired wid _ (by rw [h]; simp)
    exact ⟨h1, h2, h3, h4⟩
  · simp at h
  · split at h <;> simp at h
  · simp at h
  · split at h <;> simp at h
  · simp at h
  · simp at h

theorem startW_startFired_good (wid : Nat) (b : Bool) (w : Worker)
    (h : (startW wid b w).effs = [Eff.startFired wid]) :
    GoodW (startW wid b w).w := by
  rcases b
  · exact tick_startFired_good wid { w with control := Control.start } h
  · by_cases hcb : w.startCb = true
    · have he : (startW wid true w).effs = [] := by
        unfold startW
        simp [hcb]
      rw [he] at h
      cases h
    · have he : startW wid true w =
          tick wid { w with control := Control.start, startCb := true } := by
        unfold startW
        simp [hcb]
      rw [he] at h ⊢
      exact tick_startFired_good wid _ h

/-! The stoppable-queue invariant is preserved by the `pull` loop. -/

theorem pullStep_good (s : Sys) (hg : GoodStoppable s) : GoodStoppable (pullStep s).1 := by
  rcases hq : s.scheduleQueue with _ | ⟨wid, rest⟩
  · simpa [pullStep, hq] using hg
  · by_cases hgrd : ¬ s.numActive < (s.maxOpenFiles : Int) ∧ s.stoppableQueue = []
    · simpa [pullStep, hq, hgrd] using hg
    · have hgc : ¬((s.maxOpenFiles : Int) ≤ s.numActive ∧ s.stoppableQueue = []) := by
        intro hx
        exact hgrd ⟨by omega, hx.2⟩
      rcases hw : s.workers[wid]? with _ | w
      · have hqe : (pullStep s).1.stoppableQueue = s.stoppableQueue := by
          simp [pullStep, hq, getW, hgc, hw]
        have hwe : (pullStep s).1.workers = s.workers := by
          simp [pullStep, hq, getW, hgc, hw]
        show GoodQW (pullStep s).1.stoppableQueue (pullStep s).1.workers
        rw [hqe, hwe]
        exact hg
      · by_cases hc : w.control = Control.start
        · have hqe : (pullStep s).1.stoppableQueue = s.stoppableQueue := by
            simp [pullStep, hq, getW, hgc, hw, hc]
          have hwe : (pullStep s).1.workers = s.workers := by
            simp [pullStep, hq, getW, hgc, hw, hc]
          show GoodQW (pullStep s).1.stoppableQueue (pullStep s).1.workers
          rw [hqe, hwe]
          exact hg
        · have hnm : wid ∉ s.stoppableQueue :=
            goodQW_notmem_of_control hg wid w hw hc
          by_cases hcl : w.wstate = WState.closed
          · by_cases hh : s.numActive < (s.maxOpenFiles : Int)
            · rcases he : (startW wid true w).effs with _ | ⟨e, erest⟩
              · have hqe : (pullStep s).1.stoppableQueue = s.stoppableQueue := by
                  simp [pullStep, hq, getW, hgc, hw, hc, hcl, hh, he, applyEffsInPull_nil,
                    setW]
                have hwe : (pullStep s).1.workers =
                    s.workers.set wid (startW wid true w).w := by
                  simp [pullStep, hq, getW, hgc, hw, hc, hcl, hh, he,
                    applyEffsInPull_nil, setW]
                show GoodQW (pullStep s).1.stoppableQueue (pullStep s).1.workers
                rw [hqe, hwe]
                exact goodQW_set hg wid _ (fun hmem => absurd hmem hnm)
              · have he' : (startW wid true w).effs = [Eff.startFired wid] := by
                  rcases startW_effs wid true w with h2 | h2
                  · rw [h2] at he
                    cases he
                  · exact h2
                have hgw : GoodW (startW wid true w).w :=
                  startW_startFired_good wid true w he'
                have hqe : (pullStep s).1.stoppableQueue =
                    s.stoppableQueue ++ [wid] := by
                  simp [pullStep, hq, getW, hgc, hw, hc, hcl, hh, he',
                    applyEffsInPull_startFired, setW]
                have hwe : (pullStep s).1.workers =
                    s.workers.set wid (startW wid true w).w := by
                  simp [pullStep, hq, getW, hgc, hw, hc, hcl, hh, he',
                    applyEffsInPull_startFired, setW]
                show GoodQW (pullStep s).1.stoppableQueue (pullStep s).1.workers
                rw [hqe, hwe]
                refine goodQW_push (goodQW_set hg wid _ (fun hmem => absurd hmem hnm))
                  wid _ hnm ?_ hgw
                exact getW_set_self _ hw
            · rcases hv : s.stoppableQueue with _ | ⟨v, vrest⟩
              · exact absurd ⟨hh, hv⟩ hgrd
              · have hgv : GoodQW (v :: vrest) s.workers := by
                  rw [← hv]
                  exact hg
                rcases hwv : s.workers[v]? with _ | wv
                · have hqe : (pullStep s).1.stoppableQueue = vrest := by
                    simp [pullStep, hq, getW, hgc, hw, hc, hcl, hh, hv, hwv]
                  have hwe : (pullStep s).1.workers = s.workers := by
                    simp [pullStep, hq, getW, hgc, hw, hc, hcl, hh, hv, hwv]
                  show GoodQW (pullStep s).1.stoppableQueue (pullStep s).1.workers
                  rw [hqe, hwe]
                  exact goodQW_tail hgv
                · rcases stopW_effs v wv with he | he <;>
                    [skip; skip] <;>
                    {
                      have hqe : (pullStep s).1.stoppableQueue = vrest := by
                        simp [pullStep, hq, getW, hgc, hw, hc, hcl, hh, hv, hwv, he,
                          applyEffsInPull_nil, applyEffsInPull_stopFired, setW]
                      have hwe : (pullStep s).1.workers =
                          s.workers.set v (stopW v wv).w := by
                        simp [pullStep, hq, getW, hgc, hw, hc, hcl, hh, hv, hwv, he,
                          applyEffsInPull_nil, applyEffsInPull_stopFired, setW]
                      show GoodQW (pullStep s).1.stoppableQueue (pullStep s).1.workers
                      rw [hqe, hwe]
                      exact goodQW_set (goodQW_tail hgv) v _
                        (fun hmem => absurd hmem (goodQW_head_notmem hgv))
                    }
          · rcases he : (startW wid false w).effs with _ | ⟨e, erest⟩
            · have hqe : (pullStep s).1.stoppableQueue = s.stoppableQueue := by
                simp [pullStep, hq, getW, hgc, hw, hc, hcl, he, applyEffsInPull_nil, setW]
              have hwe : (pullStep s).1.workers =
                  s.workers.set wid (startW wid false w).w := by
                simp [pullStep, hq, getW, hgc, hw, hc, hcl, he,
                  applyEffsInPull_nil, setW]
              show GoodQW (pullStep s).1.stoppableQueue (pullStep s).1.workers
              rw [hqe, hwe]
              exact goodQW_set hg wid _ (fun hmem => absurd hmem hnm)
            · have he' : (startW wid false w).effs = [Eff.startFired wid] := by
                rcases startW_effs wid false w with h2 | h2
                · rw [h2] at he
                  cases he
                · exact h2
              have hgw : GoodW (startW wid false w).w :=
                startW_startFired_good wid false w he'
              have hqe : (pullStep s).1.stoppableQueue = s.stoppableQueue ++ [wid] := by
                simp [pullStep, hq, getW, hgc, hw, hc, hcl, he',
                  applyEffsInPull_startFired, setW]
              have hwe : (pullStep s).1.workers =
                  s.workers.set wid (startW wid false w).w := by
                simp [pullStep, hq, getW, hgc, hw, hc, hcl, he',
                  applyEffsInPull_startFired, setW]
              show GoodQW (pullStep s).1.stoppableQueue (pullStep s).1.workers
              rw [hqe, hwe]
              refine goodQW_push (goodQW_set hg wid _ (fun hmem => absurd hmem hnm))
                wid _ hnm ?_ hgw
              exact getW_set_self _ hw

theorem pullF_good : ∀ (n : Nat) (s s' : Sys), pullF n s = some s' →
    GoodStoppable s → GoodStoppable s' := by
  intro n
  induction n with
  | zero => intro s s' h; simp [pullF] at h
  | succ n ih =>
    intro s s' h hg
    rcases hp : pullStep s with ⟨s1, b⟩
    have hg1 : GoodStoppable s1 := by
      have := pullStep_good s hg
      rwa [hp] at this
    cases b
    · simp only [pullF, hp] at h
      cases h
      exact hg1
    · simp only [pullF, hp] at h
      exact ih s1 s' h hg1

theorem pull_good (s : Sys) (hg : GoodStoppable s) : GoodStoppable (pull s) := by
  have hs := pullF_sufficient (pullMeasure s + 1) s (by omega)
  rcases ho : pullF (pullMeasure s + 1) s with _ | s'
  · rw [ho] at hs
    simp at hs
  · have := pullF_good _ s s' ho hg
    simpa [pull, ho] using this

/-! The stoppable-queue invariant is preserved by every event. -/

theorem applySysEffs_nil (s : Sys) : applySysEffs s [] = s := rfl

theorem applySysEffs_startFired (s : Sys) (wid : Nat) :
    applySysEffs s [Eff.startFired wid] =
      pull { s with stoppableQueue := s.stoppableQueue ++ [wid] } := rfl

theorem applySysEffs_stopFired (s : Sys) (wid : Nat) :
    applySysEffs s [Eff.stopFired wid] =
      pull { s with numActive := s.numActive - 1 } := rfl

theorem goodW_of_mem (s : Sys) (wid : Nat) (w : Worker) (hg : GoodStoppable s)
    (hw : getW s wid = some w) (hm : wid ∈ s.stoppableQueue) : GoodW w := by
  obtain ⟨w', hw', hgw⟩ := hg.2 wid hm
  have hw2 : s.workers[wid]? = some w := hw
  have : some w = some w' := hw2.symm.trans hw'
  cases this
  exact hgw

theorem commitTick_good (s : Sys) (wid : Nat) (w : Worker) (hg : GoodStoppable s)
    (hlt : wid < s.workers.length)
    (hmem : wid ∈ s.stoppableQueue → GoodW w) :
    GoodStoppable (commitTick s wid w) := by
  have hbase : (wid ∈ s.stoppableQueue → GoodW (tick wid w).w) →
      GoodQW s.stoppableQueue (s.workers.set wid (tick wid w).w) :=
    fun hw' => goodQW_set hg wid _ hw'
  unfold commitTick
  rcases tick_effs_shape wid w with he | he | he <;> simp only [he]
  · rw [applySysEffs_nil]
    exact hbase (fun hm => (tick_good wid w (hmem hm)).1)
  · rw [applySysEffs_startFired]
    apply pull_good
    have hnm : wid ∉ s.stoppableQueue := by
      intro hm
      have h2 := (tick_good wid w (hmem hm)).2
      rw [he] at h2
      cases h2
    refine goodQW_push (hbase (fun hm => absurd hm hnm)) wid _ hnm ?_
      (tick_startFired_good wid w he)
    exact List.getElem?_set_eq_of_lt _ hlt
  · rw [applySysEffs_stopFired]
    apply pull_good
    exact hbase (fun hm => (tick_good wid w (hmem hm)).1)

theorem submitOp_good (s : Sys) (wid : Nat) (op : Op) (hg : GoodStoppable s) :
    GoodStoppable (submitOp s wid op) := by
  unfold submitOp
  rcases hw : getW s wid with _ | w
  · exact hg
  · simp only
    have hlt : wid < s.workers.length := getW_lt hw
    have hadd : addW wid w op = tick wid { w with ops := w.ops ++ [op] } := rfl
    have hmem : wid ∈ s.stoppableQueue → GoodW { w with ops := w.ops ++ [op] } := by
      intro hm
      have hgw := goodW_of_mem s wid w hg hw hm
      exact ⟨hgw.1, hgw.2.1, hgw.2.2.1, hgw.2.2.2⟩
    have hbase : (wid ∈ s.stoppableQueue → GoodW (addW wid w op).w) →
        GoodQW s.stoppableQueue (s.workers.set wid (addW wid w op).w) :=
      fun hw' => goodQW_set hg wid _ hw'
    split
    · exact hbase (fun hm => by
        rw [hadd]
        exact (tick_good wid _ (hmem hm)).1)
    · apply pull_good
      show GoodStoppable (applySysEffs
        { setW s wid (addW wid w op).w with
            pendingOs := s.pendingOs ++ (addW wid w op).reqs
            crashed := s.crashed || (addW wid w op).crash } (addW wid w op).effs)
      rw [hadd] at hbase ⊢
      rcases tick_effs_shape wid { w with ops := w.ops ++ [op] } with he | he | he <;>
        simp only [he]
      · rw [applySysEffs_nil]
        exact hbase (fun hm => (tick_good wid _ (hmem hm)).1)
      · rw [applySysEffs_startFired]
        apply pull_good
        have hnm : wid ∉ s.stoppableQueue := by
          intro hm
          have h2 := (tick_good wid _ (hmem hm)).2
          rw [he] at h2
          cases h2
        refine goodQW_push (hbase (fun hm => absurd hm hnm)) wid _ hnm ?_
          (tick_startFired_good wid _ he)
        exact List.getElem?_set_eq_of_lt _ hlt
      · rw [applySysEffs_stopFired]
        apply pull_good
        exact hbase (fun hm => (tick_good wid _ (hmem hm)).1)

theorem storageFor_good (s : Sys) (p : String) (hg : GoodStoppable s) :
    GoodStoppable (storageFor s p).1 := by
  unfold storageFor
  rcases h : lookupPI s p with _ | wid <;> simp only [h]
  · exact goodQW_append hg _
  · exact hg

theorem stepReadDone_good (s : Sys) (wid opId : Nat) (res : OsRead)
    (hg : GoodStoppable s) (s' : Sys)
    (he : stepReadDone s wid opId res = some s') : GoodStoppable s' := by
  rcases hx : extractFirst (isOsRead wid opId) s.pendingOs with _ | ⟨req, restOs⟩
  · unfold stepReadDone at he
    rw [hx] at he
    cases he
  · rcases req with ⟨a1, a2, a3, a4, rsize⟩ | ⟨a1, a2, a3, a4, a5⟩ | a1 | a1 | ⟨a1, a2⟩ <;>
      first
      | (unfold stepReadDone at he; rw [hx] at he; cases he)
      | skip
    rcases hw : getW s wid with _ | w
    · unfold stepReadDone at he
      rw [hx, hw] at he
      cases he
    · have hlt : wid < s.workers.length := getW_lt hw
      have hmem : wid ∈ s.stoppableQueue →
          GoodW { w with inFlightReads := w.inFlightReads - 1 } := by
        intro hm
        have hgw := goodW_of_mem s wid w hg hw hm
        exact ⟨hgw.1, hgw.2.1, hgw.2.2.1, hgw.2.2.2⟩
      unfold stepReadDone at he
      rw [hx, hw] at he
      rcases res with e | ⟨n, bytes⟩
      · cases he
        exact commitTick_good _ wid _ hg hlt hmem
      · by_cases h0 : n = 0
        · simp only [h0] at he
          cases he
          exact commitTick_good _ wid _ hg hlt hmem
        · by_cases h1 : n = rsize
          · subst h1
            simp [h0] at he
            rw [← he]
            exact commitTick_good _ wid _ hg hlt hmem
          · simp [h0, h1] at he
            rw [← he]
            exact goodQW_set hg wid _ hmem

theorem stepWriteDone_good (s : Sys) (wid opId : Nat) (res : OsWrite)
    (hg : GoodStoppable s) (s' : Sys)
    (he : stepWriteDone s wid opId res = some s') : GoodStoppable s' := by
  unfold stepWriteDone at he
  rcases hx : extractFirst (isOsWrite wid opId) s.pendingOs with _ | ⟨req, restOs⟩ <;>
    rw [hx] at he
  · cases he
  · rcases req with ⟨a1, a2, a3, a4, a5⟩ | ⟨a1, a2, a3, a4, wdata⟩ | a1 | a1 | ⟨a1, a2⟩ <;>
      try cases he
    rcases hw : getW s wid with _ | w <;> rw [hw] at he
    · cases he
    · have hlt : wid < s.workers.length := getW_lt hw
      have hmem : wid ∈ s.stoppableQueue →
          GoodW { w with inFlightWrites := w.inFlightWrites - 1 } := by
        intro hm
        have hgw := goodW_of_mem s wid w hg hw hm
        exact ⟨hgw.1, hgw.2.1, hgw.2.2.1, hgw.2.2.2⟩
      rcases res with e | written
      · cases he
        exact commitTick_good _ wid _ hg hlt hmem
      · by_cases h0 : written = wdata.length
        · simp [h0] at he
          rw [← he]
          exact commitTick_good _ wid _ hg hlt hmem
        · simp [h0] at he
          rw [← he]
          exact goodQW_set hg wid _ hmem

theorem stepMkdirDone_good (s : Sys) (wid : Nat) (hg : GoodStoppable s) (s' : Sys)
    (he : stepMkdirDone s wid = some s') : GoodStoppable s' := by
  unfold stepMkdirDone at he
  rcases hx : extractFirst (isOsMkdir wid) s.pendingOs with _ | ⟨req, restOs⟩ <;>
    rw [hx] at he
  · cases he
  · rcases hw : getW s wid with _ | w <;> rw [hw] at he
    · cases he
    · cases he
      refine goodQW_set hg wid _ (fun hm => ?_)
      have hgw := goodW_of_mem s wid w hg hw hm
      exact ⟨hgw.1, hgw.2.1, hgw.2.2.1, hgw.2.2.2⟩

theorem stepOpenDone_good (s : Sys) (wid fd : Nat) (hg : GoodStoppable s) (s' : Sys)
    (he : stepOpenDone s wid fd = some s') : GoodStoppable s' := by
  unfold stepOpenDone at he
  rcases hx : extractFirst (isOsOpen wid) s.pendingOs with _ | ⟨req, restOs⟩ <;>
    rw [hx] at he
  · cases he
  · rcases hw : getW s wid with _ | w <;> rw [hw] at he
    · cases he
    · by_cases hst : w.wstate = WState.opening
      · simp only [hst, if_pos] at he
        cases he
        refine commitTick_good _ wid _ hg (getW_lt hw) (fun hm => ?_)
        have hgw := goodW_of_mem s wid w hg hw hm
        exact absurd hgw.1 (by rw [hst]; intro hh; cases hh)
      · simp [hst] at he
        cases he
        exact hg

theorem stepCloseDone_good (s : Sys) (wid : Nat) (hg : GoodStoppable s) (s' : Sys)
    (he : stepCloseDone s wid = some s') : GoodStoppable s' := by
  unfold stepCloseDone at he
  rcases hx : extractFirst (isOsClose wid) s.pendingOs with _ | ⟨req, restOs⟩ <;>
    rw [hx] at he
  · cases he
  · rcases hw : getW s wid with _ | w <;> rw [hw] at he
    · cases he
    · by_cases hst : w.wstate = WState.closing
      · simp only [hst, if_pos] at he
        cases he
        refine commitTick_good _ wid _ hg (getW_lt hw) (fun hm => ?_)
        have hgw := goodW_of_mem s wid w hg hw hm
        exact absurd hgw.1 (by rw [hst]; intro hh; cases hh)
      · simp [hst] at he
        cases he
        exact hg

theorem step_good (s : Sys) (e : Ev) (hg : GoodStoppable s)
    (s' : Sys) (he : step s e = some s') : GoodStoppable s' := by
  cases e with
  | evStorageFor p =>
    simp only [step] at he
    split at he
    · cases he; exact hg
    · cases he; exact storageFor_good s p hg
  | evRead p opId offset size =>
    simp only [step] at he
    split at he
    · cases he; exact hg
    · split at he
      · cases he; exact submitOp_good _ _ _ hg
      · cases he
  | evWrite p opId offset data =>
    simp only [step] at he
    split at he
    · cases he; exact hg
    · split at he
      · cases he; exact submitOp_good _ _ _ hg
      · cases he
  | evMkdirDone wid =>
    simp only [step] at he
    split at he
    · cases he; exact hg
    · exact stepMkdirDone_good s wid hg s' he
  | evOpenDone wid fd =>
    simp only [step] at he
    split at he
    · cases he; exact hg
    · exact stepOpenDone_good s wid fd hg s' he
  | evCloseDone wid =>
    simp only [step] at he
    split at he
    · cases he; exact hg
    · exact stepCloseDone_good s wid hg s' he
  | evReadDone wid opId res =>
    simp only [step] at he
    split at he
    · cases he; exact hg
    · exact stepReadDone_good s wid opId res hg s' he
  | evWriteDone wid opId res =>
    simp only [step] at he
    split at he
    · cases he; exact hg
    · exact stepWriteDone_good s wid opId res hg s' he

theorem stepD_good (s : Sys) (e : Ev) (hg : GoodStoppable s) :
    GoodStoppable (stepD s e) := by
  rcases hs : step s e with _ | s'
  · simpa [stepD, hs] using hg
  · rw [stepD, hs, Option.getD_some]
    exact step_good s e hg s' hs

theorem run_good : ∀ (evs : List Ev) (s : Sys), GoodStoppable s →
    GoodStoppable (run s evs) := by
  intro evs
  induction evs with
  | nil => intro s hg; exact hg
  | cons e rest ih =>
    intro s hg
    exact ih (stepD s e) (stepD_good s e hg)

theorem mkSys_good (d : String) (m : Nat) (s0 : Sys) (h : mkSys d m = some s0) :
    GoodStoppable s0 := by
  unfold mkSys at h
  split at h
  · cases h
  · cases h
    exact ⟨List.nodup_nil, fun v hv => absurd hv (List.not_mem_nil v)⟩

/-- C4, counterexample: the spec's iff fails in the rescue direction.  In
the reachable state `run initD3 rescueTrace` (the scheduler built by
`mkSys "d" 3` driven through an eviction, a rescue out of `Draining` by
`start(null)`, and a final drain of the new op), worker 0 is `Opened`
under `control = Start`, has drained its queued ops to empty (its op queue
is empty and no assertion fired), yet the stoppable queue is empty — it
does not hold worker 0.  The cause in the source: the rescue path calls
`this.workers[i].start(null)`, which stores no start callback, so draining
to empty never re-fires `startCb` and the worker is never re-admitted. -/
theorem c4_stoppable_iff_fails :
    mkSys "d" 3 = some initD3 ∧
    (run initD3 rescueTrace).crashed = false ∧
    wStateOf (run initD3 rescueTrace) 0 = some WState.opened ∧
    wControlOf (run initD3 rescueTrace) 0 = some Control.start ∧
    wDrainedOf (run initD3 rescueTrace) 0 = some true ∧
    wOpsOf (run initD3 rescueTrace) 0 = some [] ∧
    (run initD3 rescueTrace).stoppableQueue = [] :=
  ⟨by rfl, by decide⟩

/-- C4, amended: the forward direction of the spec's iff holds as a
reachability invariant.  In every state reached from a successfully
constructed scheduler, the stoppable queue has no duplicates and every
worker on it exists, is `Opened` with `control = Start`, and has at least
once finished executing its queued ops down to empty (ghost flag
`drainedOnce`).  The converse — such a worker is always on the queue — is
refuted by the rescue counterexample above. -/
theorem c4_stoppable_members (d : String) (m : Nat) (s0 : Sys)
    (h : mkSys d m = some s0) (evs : List Ev) :
    (run s0 evs).stoppableQueue.Nodup ∧
    ∀ v ∈ (run s0 evs).stoppableQueue,
      wStateOf (run s0 evs) v = some WState.opened ∧
      wControlOf (run s0 evs) v = some Control.start ∧
      wDrainedOf (run s0 evs) v = some true := by
  have hg := run_good evs s0 (mkSys_good d m s0 h)
  refine ⟨hg.1, fun v hv => ?_⟩
  obtain ⟨w, hw, hgw⟩ := hg.2 v hv
  have hgetw : getW (run s0 evs) v = some w := hw
  refine ⟨?_, ?_, ?_⟩
  · rw [wStateOf, hgetw]
    exact congrArg some hgw.1
  · rw [wControlOf, hgetw]
    exact congrArg some hgw.2.1
  · rw [wDrainedOf, hgetw]
    exact congrArg some hgw.2.2.1

/-- Witness for the amended C4 invariant at a concrete construction and
trace. -/
theorem c4_stoppable_members_witness :
    mkSys "d" 2 = some initD2 ∧
    ((run initD2 rescueTrace).stoppableQueue.Nodup ∧
      ∀ v ∈ (run initD2 rescueTrace).stoppableQueue,
        wStateOf (run initD2 rescueTrace) v = some WState.opened ∧
        wControlOf (run initD2 rescueTrace) v = some Control.start ∧
        wDrainedOf (run initD2 rescueTrace) v = some true) :=
  ⟨by rfl, c4_stoppable_members "d" 2 initD2 (by rfl) rescueTrace⟩

end RAFS
